import Mathlib

set_option autoImplicit false
set_option maxRecDepth 4000

/-!
Verification of the anvil-wallet signing core.

This file gives a shallow embedding, in Lean 4, of the transaction-building
code of the anvil-wallet repository (crates chain-btc, chain-zec, chain-sol,
chain-eth), and proves the specification claims about it.

Conventions of the embedding:
* Machine integers (u8/u16/u32/u64/u128/usize) are modelled as `Nat`; byte
  strings as `List Nat` (each element a byte value).
* Fallible Rust functions returning `Result<T, E>` become `Except E T`.
* Calls into external third-party crates (the `bitcoin` crate's address and
  txid parsing, `sha2`'s SHA-256, `curve25519-dalek`'s point decompression,
  `ed25519-dalek`'s key derivation and signing, the `hex` crate) are taken as
  explicit function parameters of the embedded repository functions, so every
  theorem quantifies over their behaviour; everything written in the
  repository itself is embedded directly.
* Rust's `slice::sort_by` is a stable sort under a total preorder given by a
  comparator; the output of any stable sort for a fixed total preorder is
  unique, so it is modelled by `List.insertionSort` (also stable), with the
  relation `le a b := cmp a b ≠ Greater`.
-/

/-! ## Bitwise helper lemmas

The Rust code manipulates bytes with `&`, `|`, `<<`, `>>`; the embedding keeps
those as `Nat.land`/`lor`/`shiftLeft`/`shiftRight`.  These lemmas translate
them to `%`, `+`, `*` arithmetic in the range cases that occur. -/

theorem lor_shiftLeft_eq_add (k a b : ℕ) (h : a < 2 ^ k) :
    a ||| (b <<< k) = a + b * 2 ^ k := by
  induction k generalizing a b with
  | zero =>
    interval_cases a
    simp [Nat.shiftLeft_eq]
  | succ k ih =>
    have ha : Nat.bit (Nat.bodd a) (Nat.div2 a) = a := Nat.bit_decomp a
    have hb : (b <<< (k + 1)) = Nat.bit false (b <<< k) := by
      simp [Nat.shiftLeft_eq, Nat.bit_val, Nat.pow_succ]
      ring
    rw [← ha, hb, Nat.lor_bit]
    have hdiv : Nat.div2 a < 2 ^ k := by
      rw [Nat.div2_val]
      omega
    rw [ih _ b hdiv]
    simp only [Bool.or_false, Nat.bit_val]
    have := Nat.bodd_add_div2 a
    rw [Nat.div2_val] at *
    cases hba : Nat.bodd a <;> simp [hba] at this ⊢ <;> ring_nf <;> omega

theorem land_127_eq_mod (b : ℕ) : b &&& 127 = b % 128 := by
  have h : (127 : ℕ) = 2 ^ 7 - 1 := by norm_num
  have h2 : (128 : ℕ) = 2 ^ 7 := by norm_num
  rw [h, h2, Nat.and_pow_two_sub_one_eq_mod]

theorem lor_128_eq_add (a : ℕ) (h : a < 128) : a ||| 128 = a + 128 := by
  have h7 : a < 2 ^ 7 := by norm_num at *; omega
  have := lor_shiftLeft_eq_add 7 a 1 h7
  simpa [Nat.shiftLeft_eq] using this

theorem land_128_eq_zero (b : ℕ) (h : b < 128) : b &&& 128 = 0 := by
  have h2 : (128 : ℕ) = 2 ^ 7 := by norm_num
  rw [h2, Nat.and_two_pow]
  have : b.testBit 7 = false := by
    apply Nat.testBit_lt_two_pow
    norm_num
    omega
  simp [this]

theorem land_128_ne_zero (b : ℕ) (h1 : 128 ≤ b) (h2 : b < 256) : b &&& 128 ≠ 0 := by
  have he : (128 : ℕ) = 2 ^ 7 := by norm_num
  rw [he, Nat.and_two_pow]
  have ht : b.testBit 7 = true := by
    rw [Nat.testBit_to_div_mod]
    have hd : b / 2 ^ 7 = 1 := by
      norm_num
      omega
    rw [hd]
    decide
  simp [ht]

theorem shiftRight_7_eq_div (v : ℕ) : v >>> 7 = v / 128 := by
  rw [Nat.shiftRight_eq_div_pow]

/-! ## chain-btc: data model (utxo.rs, error.rs, network.rs) -/

/-- `Utxo` from chain-btc/src/utxo.rs. -/
structure Utxo where
  txid : String
  vout : Nat
  amount_sat : Nat
  script_pubkey : List Nat
deriving DecidableEq, Repr

/-- `UtxoSelection` from chain-btc/src/utxo.rs. -/
structure UtxoSelection where
  selected : List Utxo
  total_sat : Nat
deriving DecidableEq, Repr

/-- `BtcError` from chain-btc/src/error.rs (six variants, each carrying its
message string). -/
inductive BtcError where
  | InvalidPrivateKey : String → BtcError
  | InvalidPublicKey : String → BtcError
  | InvalidAddress : String → BtcError
  | TransactionBuildError : String → BtcError
  | SigningError : String → BtcError
  | InvalidNetwork : String → BtcError
deriving DecidableEq, Repr

/-- `BtcNetwork` from chain-btc/src/network.rs. -/
inductive BtcNetwork where
  | Mainnet
  | Testnet
  | Signet
deriving DecidableEq, Repr

namespace Btc

/-- `P2WPKH_INPUT_VBYTES` from chain-btc/src/transaction.rs. -/
def P2WPKH_INPUT_VBYTES : Nat := 68

/-- `OUTPUT_VBYTES` from chain-btc/src/transaction.rs. -/
def OUTPUT_VBYTES : Nat := 31

/-- `TX_OVERHEAD_VBYTES` from chain-btc/src/transaction.rs. -/
def TX_OVERHEAD_VBYTES : Nat := 11

/-- `estimate_fee` from chain-btc/src/transaction.rs. -/
def estimate_fee (num_inputs num_outputs fee_rate_sat_vbyte : Nat) : Nat :=
  (TX_OVERHEAD_VBYTES + num_inputs * P2WPKH_INPUT_VBYTES
    + num_outputs * OUTPUT_VBYTES) * fee_rate_sat_vbyte

/-- The sum of the `amount_sat` fields of a list of UTXOs. -/
def sumAmounts (l : List Utxo) : Nat := (l.map (·.amount_sat)).sum

/-- The `sorted.sort_by(|a, b| b.amount_sat.cmp(&a.amount_sat))` step of
`select_utxos`: a stable sort, descending by amount. -/
def sortUtxosDesc (utxos : List Utxo) : List Utxo :=
  utxos.insertionSort (fun a b => b.amount_sat ≤ a.amount_sat)

/-- The greedy accumulation loop of `select_utxos`
(chain-btc/src/utxo.rs, lines 48-57).  `Sum.inr` is the early successful
return; `Sum.inl` carries the (selected, total) state at loop exit. -/
def selectLoop (target_sat fee_rate : Nat) :
    List Utxo → List Utxo → Nat → (List Utxo × Nat) ⊕ UtxoSelection
  | [], selected, total_sat => Sum.inl (selected, total_sat)
  | u :: rest, selected, total_sat =>
    let selected' := selected ++ [u]
    let total' := total_sat + u.amount_sat
    let fee := estimate_fee selected'.length 2 fee_rate
    if target_sat + fee ≤ total' then Sum.inr ⟨selected', total'⟩
    else selectLoop target_sat fee_rate rest selected' total'

/-- The `format!` message of the insufficient-funds `TransactionBuildError`
in `select_utxos` (chain-btc/src/utxo.rs, lines 65-71). -/
def insufficientFundsMessage (total_sat target_sat fee : Nat) : String :=
  "insufficient funds: have " ++ Nat.repr total_sat ++ " sat, need "
    ++ Nat.repr (target_sat + fee) ++ " sat (target " ++ Nat.repr target_sat
    ++ " + fee " ++ Nat.repr fee ++ ")"

/-- `select_utxos` from chain-btc/src/utxo.rs. -/
def select_utxos (utxos : List Utxo) (target_sat fee_rate_sat_vbyte : Nat) :
    Except BtcError UtxoSelection :=
  if utxos.isEmpty then
    Except.error (BtcError.TransactionBuildError "no UTXOs available")
  else
    match selectLoop target_sat fee_rate_sat_vbyte (sortUtxosDesc utxos) [] 0 with
    | Sum.inr sel => Except.ok sel
    | Sum.inl (selected, total_sat) =>
      let fee := estimate_fee selected.length 2 fee_rate_sat_vbyte
      if target_sat + fee ≤ total_sat then
        Except.ok ⟨selected, total_sat⟩
      else
        Except.error (BtcError.TransactionBuildError
          (insufficientFundsMessage total_sat target_sat fee))

/-! ## chain-btc: transaction building (transaction.rs)

The `bitcoin` crate types `Transaction`, `TxIn`, `TxOut` are modelled
structurally with the fields the repository reads and writes.  The external
`bitcoin` crate address parsing (`parse::<Address<NetworkUnchecked>>` followed
by `require_network`, then `.script_pubkey()`) and `Txid` parsing are taken as
function parameters `parseAddress` / `parseTxid` returning the resulting
scriptPubKey / txid bytes, or an error description. -/

/-- `bitcoin::TxOut` as used by the repository. -/
structure TxOut where
  value : Nat
  script_pubkey : List Nat
deriving DecidableEq, Repr

/-- `bitcoin::TxIn` as used by the repository.  `sequence` is
`Sequence::ENABLE_RBF_NO_LOCKTIME = 0xFFFFFFFD`. -/
structure TxIn where
  previous_output_txid : List Nat
  previous_output_vout : Nat
  script_sig : List Nat
  sequence : Nat
  witness : List (List Nat)
deriving DecidableEq, Repr

/-- `bitcoin::Transaction` as used by the repository. -/
structure BtcTransaction where
  version : Nat
  lock_time : Nat
  input : List TxIn
  output : List TxOut
deriving DecidableEq, Repr

/-- `UnsignedBtcTx` from chain-btc/src/transaction.rs. -/
structure UnsignedBtcTx where
  tx : BtcTransaction
  prevouts : List TxOut
deriving DecidableEq, Repr

/-- The input-building loop of `build_p2wpkh_transaction`
(chain-btc/src/transaction.rs, lines 78-99): parse each selected UTXO's txid
and push a `TxIn` (empty scriptSig, RBF sequence, empty witness) and its
prevout `TxOut`; the first bad txid aborts the build. -/
def buildInputs (parseTxid : String → Except String (List Nat)) :
    List Utxo → Except BtcError (List (TxIn × TxOut))
  | [] => Except.ok []
  | utxo :: rest =>
    match parseTxid utxo.txid with
    | Except.error e =>
      Except.error (BtcError.TransactionBuildError ("invalid txid: " ++ e))
    | Except.ok txid =>
      match buildInputs parseTxid rest with
      | Except.error e => Except.error e
      | Except.ok pairs =>
        Except.ok
          ((({ previous_output_txid := txid, previous_output_vout := utxo.vout,
               script_sig := [], sequence := 0xFFFFFFFD, witness := [] } : TxIn),
            ({ value := utxo.amount_sat,
               script_pubkey := utxo.script_pubkey } : TxOut)) :: pairs)

/-- `build_p2wpkh_transaction` from chain-btc/src/transaction.rs. -/
def build_p2wpkh_transaction
    (parseAddress : String → BtcNetwork → Except String (List Nat))
    (parseTxid : String → Except String (List Nat))
    (utxos : List Utxo) (recipient : String) (amount_sat : Nat)
    (change_address : String) (fee_rate_sat_vbyte : Nat) (network : BtcNetwork) :
    Except BtcError UnsignedBtcTx := do
  let recipient_spk ← match parseAddress recipient network with
    | Except.error e =>
      Except.error (BtcError.InvalidAddress ("invalid recipient address: " ++ e))
    | Except.ok s => Except.ok s
  let change_spk ← match parseAddress change_address network with
    | Except.error e =>
      Except.error (BtcError.InvalidAddress ("invalid change address: " ++ e))
    | Except.ok s => Except.ok s
  let selection ← select_utxos utxos amount_sat fee_rate_sat_vbyte
  let pairs ← buildInputs parseTxid selection.selected
  let inputs := pairs.map Prod.fst
  let prevouts := pairs.map Prod.snd
  let fee_2_outputs := estimate_fee selection.selected.length 2 fee_rate_sat_vbyte
  let _fee_1_output := estimate_fee selection.selected.length 1 fee_rate_sat_vbyte
  let change_sat := selection.total_sat - (amount_sat + fee_2_outputs)
  let dust_threshold : Nat := 546
  let outputs :=
    if dust_threshold < change_sat then
      [({ value := amount_sat, script_pubkey := recipient_spk } : TxOut),
       ({ value := change_sat, script_pubkey := change_spk } : TxOut)]
    else
      [({ value := amount_sat, script_pubkey := recipient_spk } : TxOut)]
  Except.ok
    { tx := { version := 2, lock_time := 0, input := inputs, output := outputs },
      prevouts := prevouts }

end Btc

/-! ## Hex decoding (the `hex` crate, modelled concretely) -/

/-- Value of one hexadecimal digit, or `none`. -/
def hexDigitValue? (c : Char) : Option Nat :=
  if '0' ≤ c ∧ c ≤ '9' then some (c.toNat - '0'.toNat)
  else if 'a' ≤ c ∧ c ≤ 'f' then some (c.toNat - 'a'.toNat + 10)
  else if 'A' ≤ c ∧ c ≤ 'F' then some (c.toNat - 'A'.toNat + 10)
  else none

/-- `hex::decode`: bytes of an even-length hex string, or `none`. -/
def hexDecode? : List Char → Option (List Nat)
  | [] => some []
  | [_] => none
  | c1 :: c2 :: rest => do
    let hi ← hexDigitValue? c1
    let lo ← hexDigitValue? c2
    let tail ← hexDecode? rest
    some ((hi * 16 + lo) :: tail)

/-! ## chain-zec: transparent transaction building (transaction.rs, error.rs) -/

/-- `ZecError` from chain-zec/src/error.rs.  `InsufficientFunds` carries
`needed` then `available`. -/
inductive ZecError where
  | InvalidPrivateKey : String → ZecError
  | InvalidPublicKey : String → ZecError
  | InvalidAddress : String → ZecError
  | TransactionBuildError : String → ZecError
  | SigningError : String → ZecError
  | InsufficientFunds : Nat → Nat → ZecError
deriving DecidableEq, Repr

/-- `ZecNetwork` from chain-zec/src/address.rs. -/
inductive ZecNetwork where
  | Mainnet
  | Testnet
deriving DecidableEq, Repr

namespace Zec

/-- `TX_VERSION` (fOverwintered | v5) from chain-zec/src/transaction.rs. -/
def TX_VERSION : Nat := 0x80000005

/-- `VERSION_GROUP_ID` from chain-zec/src/transaction.rs. -/
def VERSION_GROUP_ID : Nat := 0x26A7270A

/-- `CONSENSUS_BRANCH_ID_MAINNET` (NU5) from chain-zec/src/transaction.rs. -/
def CONSENSUS_BRANCH_ID_MAINNET : Nat := 0xC2D6D0B4

/-- `CONSENSUS_BRANCH_ID_TESTNET` (NU5, same value) from
chain-zec/src/transaction.rs. -/
def CONSENSUS_BRANCH_ID_TESTNET : Nat := 0xC2D6D0B4

/-- `DUST_THRESHOLD` from chain-zec/src/transaction.rs. -/
def DUST_THRESHOLD : Nat := 546

/-- `TX_OVERHEAD_BYTES` from chain-zec/src/transaction.rs. -/
def TX_OVERHEAD_BYTES : Nat := 46

/-- `INPUT_BYTES` from chain-zec/src/transaction.rs. -/
def INPUT_BYTES : Nat := 148

/-- `OUTPUT_BYTES` from chain-zec/src/transaction.rs. -/
def OUTPUT_BYTES : Nat := 34

/-- `ZecUtxo` from chain-zec/src/transaction.rs. -/
structure ZecUtxo where
  txid : String
  vout : Nat
  amount_zatoshi : Nat
  script_pubkey : List Nat
deriving DecidableEq, Repr

/-- `TxInput` from chain-zec/src/transaction.rs. -/
structure TxInput where
  prev_txid : List Nat
  prev_vout : Nat
  script_pubkey : List Nat
  amount : Nat
  sequence : Nat
deriving DecidableEq, Repr

/-- `TxOutput` from chain-zec/src/transaction.rs. -/
structure TxOutput where
  amount : Nat
  script_pubkey : List Nat
deriving DecidableEq, Repr

/-- `UnsignedZecTx` from chain-zec/src/transaction.rs. -/
structure UnsignedZecTx where
  version : Nat
  version_group_id : Nat
  consensus_branch_id : Nat
  lock_time : Nat
  expiry_height : Nat
  inputs : List TxInput
  outputs : List TxOutput
deriving DecidableEq, Repr

/-- `estimate_fee` from chain-zec/src/transaction.rs. -/
def estimate_fee (num_inputs num_outputs fee_rate_zat_byte : Nat) : Nat :=
  (TX_OVERHEAD_BYTES + num_inputs * INPUT_BYTES + num_outputs * OUTPUT_BYTES)
    * fee_rate_zat_byte

/-- The sum of the `amount_zatoshi` fields of a list of ZEC UTXOs. -/
def sumAmounts (l : List ZecUtxo) : Nat := (l.map (·.amount_zatoshi)).sum

/-- The `sorted.sort_by(|a, b| b.amount_zatoshi.cmp(&a.amount_zatoshi))` step
of `build_transparent_transaction`: stable sort, descending by amount. -/
def sortZecUtxosDesc (utxos : List ZecUtxo) : List ZecUtxo :=
  utxos.insertionSort (fun a b => b.amount_zatoshi ≤ a.amount_zatoshi)

/-- The inline greedy selection loop of `build_transparent_transaction`
(chain-zec/src/transaction.rs, lines 109-117); the `break` just exits the
loop, so the result type is the final (selected, total) state either way. -/
def zecSelectLoop (amount_zat fee_rate : Nat) :
    List ZecUtxo → List ZecUtxo → Nat → (List ZecUtxo × Nat)
  | [], selected, total_in => (selected, total_in)
  | u :: rest, selected, total_in =>
    let selected' := selected ++ [u]
    let total' := total_in + u.amount_zatoshi
    let fee := estimate_fee selected'.length 2 fee_rate
    if amount_zat + fee ≤ total' then (selected', total')
    else zecSelectLoop amount_zat fee_rate rest selected' total'

/-- The whole selection phase of `build_transparent_transaction`. -/
def zecSelect (utxos : List ZecUtxo) (amount_zat fee_rate : Nat) :
    List ZecUtxo × Nat :=
  zecSelectLoop amount_zat fee_rate (sortZecUtxosDesc utxos) [] 0

/-- `parse_txid` from chain-zec/src/transaction.rs (hex-decode, require 32
bytes, reverse to internal byte order).  The embedded error message drops the
`hex` crate's own description text. -/
def parse_txid (txid_hex : String) : Except ZecError (List Nat) :=
  match hexDecode? txid_hex.toList with
  | none => Except.error (ZecError.TransactionBuildError "invalid txid hex")
  | some bytes =>
    if bytes.length ≠ 32 then
      Except.error (ZecError.TransactionBuildError
        ("txid must be 32 bytes, got " ++ Nat.repr bytes.length))
    else
      Except.ok bytes.reverse

/-- `p2pkh_script` from chain-zec/src/transaction.rs. -/
def p2pkh_script (pubkey_hash : List Nat) : List Nat :=
  [0x76, 0xA9, 0x14] ++ pubkey_hash ++ [0x88, 0xAC]

/-- The input-building loop of `build_transparent_transaction`
(chain-zec/src/transaction.rs, lines 130-140): parse each selected UTXO's
txid and push a `TxInput` with sequence `0xFFFFFFFE`; the first bad txid
aborts the build. -/
def buildZecInputs : List ZecUtxo → Except ZecError (List TxInput)
  | [] => Except.ok []
  | utxo :: rest =>
    match parse_txid utxo.txid with
    | Except.error e => Except.error e
    | Except.ok txid_bytes =>
      match buildZecInputs rest with
      | Except.error e => Except.error e
      | Except.ok inputs =>
        Except.ok (({ prev_txid := txid_bytes, prev_vout := utxo.vout,
                      script_pubkey := utxo.script_pubkey,
                      amount := utxo.amount_zatoshi,
                      sequence := 0xFFFFFFFE } : TxInput) :: inputs)

/-- `build_transparent_transaction` from chain-zec/src/transaction.rs.
`address_to_pubkey_hash` stands for `crate::address::address_to_pubkey_hash`
(Base58Check resolution, which calls external `sha2`). -/
def build_transparent_transaction
    (address_to_pubkey_hash : String → Except ZecError (List Nat))
    (utxos : List ZecUtxo) (recipient : String) (amount_zat : Nat)
    (change_address : String) (fee_rate_zat_byte : Nat) (network : ZecNetwork)
    (expiry_height : Nat) : Except ZecError UnsignedZecTx := do
  let recipient_hash ← address_to_pubkey_hash recipient
  let change_hash ← address_to_pubkey_hash change_address
  let sel := zecSelect utxos amount_zat fee_rate_zat_byte
  let selected := sel.1
  let total_in := sel.2
  let fee_2out := estimate_fee selected.length 2 fee_rate_zat_byte
  let fee_1out := estimate_fee selected.length 1 fee_rate_zat_byte
  if total_in < amount_zat + fee_1out then
    Except.error (ZecError.InsufficientFunds (amount_zat + fee_1out) total_in)
  else do
    let inputs ← buildZecInputs selected
    let change_zat := total_in - (amount_zat + fee_2out)
    let outputs :=
      if DUST_THRESHOLD < change_zat then
        [({ amount := amount_zat, script_pubkey := p2pkh_script recipient_hash } : TxOutput),
         ({ amount := change_zat, script_pubkey := p2pkh_script change_hash } : TxOutput)]
      else
        [({ amount := amount_zat, script_pubkey := p2pkh_script recipient_hash } : TxOutput)]
    let branch_id := match network with
      | ZecNetwork.Mainnet => CONSENSUS_BRANCH_ID_MAINNET
      | ZecNetwork.Testnet => CONSENSUS_BRANCH_ID_TESTNET
    Except.ok
      { version := TX_VERSION, version_group_id := VERSION_GROUP_ID,
        consensus_branch_id := branch_id, lock_time := 0,
        expiry_height := expiry_height, inputs := inputs, outputs := outputs }

end Zec

/-! ## chain-sol: wire codec, compilation, raw signing, SPL/PDA
(transaction.rs, spl_token.rs, error.rs)

The external `ed25519-dalek` operations (public key from a private seed, and
message signing) and the external `sha2` / `curve25519-dalek` operations
(SHA-256, Edwards point decompression) are taken as function parameters. -/

/-- `SolError` from chain-sol/src/error.rs. -/
inductive SolError where
  | InvalidPrivateKey : String → SolError
  | InvalidPublicKey : String → SolError
  | InvalidAddress : String → SolError
  | TransactionBuildError : String → SolError
  | SigningError : String → SolError
  | SerializationError : String → SolError
deriving DecidableEq, Repr

namespace Sol

/-- `SYSTEM_PROGRAM_ID` from chain-sol/src/transaction.rs: 32 zero bytes. -/
def SYSTEM_PROGRAM_ID : List Nat := List.replicate 32 0

/-- `SYSTEM_TRANSFER_IX_INDEX` from chain-sol/src/transaction.rs. -/
def SYSTEM_TRANSFER_IX_INDEX : Nat := 2

/-- The loop body of `encode_compact_u16` (chain-sol/src/transaction.rs,
lines 57-67): a do-while emitting 7 bits per byte, continuation bit 0x80. -/
def encodeCompactLoop (val : Nat) : List Nat :=
  if h : 0 < val >>> 7 then
    ((val &&& 0x7f) ||| 0x80) :: encodeCompactLoop (val >>> 7)
  else
    [val &&& 0x7f]
termination_by val
decreasing_by
  rw [shiftRight_7_eq_div] at h ⊢
  omega

/-- `encode_compact_u16` from chain-sol/src/transaction.rs (the `u16`
argument is a `Nat` below `2 ^ 16` in every theorem). -/
def encode_compact_u16 (value : Nat) : List Nat :=
  encodeCompactLoop value

/-- The loop of `decode_compact_u16` (chain-sol/src/transaction.rs, lines
364-382): accumulate 7 bits per byte, stop on a clear continuation bit or
after 3 bytes, error on truncation. -/
def decodeCompactLoop (data : List Nat) (value shift consumed : Nat) :
    Except SolError (Nat × Nat) :=
  if data.length ≤ consumed then
    Except.error (SolError.SerializationError
      "unexpected end of data while decoding compact-u16")
  else
    let byte := data.getD consumed 0
    let consumed' := consumed + 1
    let value' := value ||| ((byte &&& 0x7f) <<< shift)
    let shift' := shift + 7
    if byte &&& 0x80 = 0 then Except.ok (value', consumed')
    else if h : 3 ≤ consumed' then Except.ok (value', consumed')
    else decodeCompactLoop data value' shift' consumed'
termination_by 3 - consumed
decreasing_by omega

/-- `decode_compact_u16` from chain-sol/src/transaction.rs. -/
def decode_compact_u16 (data : List Nat) : Except SolError (Nat × Nat) :=
  if data.isEmpty then
    Except.error (SolError.SerializationError
      "unexpected end of data while decoding compact-u16")
  else
    match decodeCompactLoop data 0 0 0 with
    | Except.error e => Except.error e
    | Except.ok (value, consumed) =>
      if 65535 < value then
        Except.error (SolError.SerializationError "compact-u16 value overflow")
      else
        Except.ok (value, consumed)

/-- `SolAccountMeta` from chain-sol/src/transaction.rs. -/
structure SolAccountMeta where
  pubkey : List Nat
  is_signer : Bool
  is_writable : Bool
deriving DecidableEq, Repr

/-- `SolInstruction` from chain-sol/src/transaction.rs. -/
structure SolInstruction where
  program_id : List Nat
  accounts : List SolAccountMeta
  data : List Nat
deriving DecidableEq, Repr

/-- `CompiledInstruction` from chain-sol/src/transaction.rs. -/
structure CompiledInstruction where
  program_id_index : Nat
  account_indices : List Nat
  data : List Nat
deriving DecidableEq, Repr

/-- `SolTransaction` from chain-sol/src/transaction.rs. -/
structure SolTransaction where
  account_keys : List (List Nat)
  num_required_signatures : Nat
  num_readonly_signed : Nat
  num_readonly_unsigned : Nat
  recent_blockhash : List Nat
  compiled_instructions : List CompiledInstruction
deriving DecidableEq, Repr

/-- `AccountEntry`, the local struct of `compile_transaction`. -/
structure AccountEntry where
  pubkey : List Nat
  is_signer : Bool
  is_writable : Bool
deriving DecidableEq, Repr

instance : Inhabited AccountEntry := ⟨⟨[], false, false⟩⟩

/-- The `upsert` closure of `compile_transaction`: update the first entry
with this pubkey by OR-ing the permission bits, else push a new entry at the
end. -/
def upsert : List AccountEntry → List Nat → Bool → Bool → List AccountEntry
  | [], pubkey, signer, writable => [⟨pubkey, signer, writable⟩]
  | e :: rest, pubkey, signer, writable =>
    if e.pubkey = pubkey then
      { pubkey := e.pubkey, is_signer := e.is_signer || signer,
        is_writable := e.is_writable || writable } :: rest
    else
      e :: upsert rest pubkey signer writable

/-- The sequence of `upsert` calls made by `compile_transaction`: the fee
payer (signer+writable) first, then for each instruction its account metas in
order followed by its program id (non-signer, read-only). -/
def accountUses (instructions : List SolInstruction) (fee_payer : List Nat) :
    List (List Nat × Bool × Bool) :=
  (fee_payer, true, true) ::
    instructions.flatMap (fun ix =>
      ix.accounts.map (fun meta => (meta.pubkey, meta.is_signer, meta.is_writable))
        ++ [(ix.program_id, false, false)])

/-- The entry list of `compile_transaction` before sorting. -/
def collectEntries (instructions : List SolInstruction) (fee_payer : List Nat) :
    List AccountEntry :=
  (accountUses instructions fee_payer).foldl
    (fun es use => upsert es use.1 use.2.1 use.2.2) []

/-- Specification helper: the pubkeys of an upsert sequence. -/
def useKeys (uses : List (List Nat × Bool × Bool)) : List (List Nat) :=
  uses.map (fun u => u.1)

/-- Specification helper: whether any upsert for `pk` carries the signer bit. -/
def sigOf (uses : List (List Nat × Bool × Bool)) (pk : List Nat) : Bool :=
  uses.any (fun u => decide (u.1 = pk) && u.2.1)

/-- Specification helper: whether any upsert for `pk` carries the writable
bit. -/
def wrOf (uses : List (List Nat × Bool × Bool)) (pk : List Nat) : Bool :=
  uses.any (fun u => decide (u.1 = pk) && u.2.2)

/-- The `rank` helper inside the sort comparator of `compile_transaction`. -/
def rank (e : AccountEntry) : Nat :=
  match e.is_signer, e.is_writable with
  | true, true => 0
  | true, false => 1
  | false, true => 2
  | false, false => 3

/-- The `entries.sort_by(...)` step: a stable sort ascending by `rank`
(the comparator returns `Equal` within a rank). -/
def sortEntries (entries : List AccountEntry) : List AccountEntry :=
  entries.insertionSort (fun a b => rank a ≤ rank b)

/-- `entries.swap(0, pos)` for the fee-payer fix-up. -/
def swapToFront (entries : List AccountEntry) (pos : Nat) : List AccountEntry :=
  match entries, pos with
  | [], _ => []
  | e0 :: rest, 0 => e0 :: rest
  | e0 :: rest, p + 1 => rest.getD p e0 :: rest.set p e0

/-- The "make sure fee payer is at index 0" step of `compile_transaction`.
The `none` branch mirrors the Rust `.unwrap()`, which is unreachable since
the fee payer is always upserted first. -/
def fixFeePayer (fee_payer : List Nat) (entries : List AccountEntry) :
    List AccountEntry :=
  match entries with
  | [] => []
  | e0 :: _ =>
    if e0.pubkey = fee_payer then entries
    else
      match entries.findIdx? (fun e => e.pubkey = fee_payer) with
      | some pos => swapToFront entries pos
      | none => entries

/-- The final entry list of `compile_transaction`: collected, sorted by rank,
fee payer swapped to index 0. -/
def compileEntries (instructions : List SolInstruction) (fee_payer : List Nat) :
    List AccountEntry :=
  fixFeePayer fee_payer (sortEntries (collectEntries instructions fee_payer))

/-- The per-instruction account-index loop of `compile_transaction`: replace
each account meta by the position of its pubkey in `account_keys` (cast to
`u8`); a missing key aborts with a `TransactionBuildError`. -/
def accountIndexLoop (account_keys : List (List Nat)) :
    List SolAccountMeta → Except SolError (List Nat)
  | [] => Except.ok []
  | meta :: rest =>
    match account_keys.findIdx? (fun k => k = meta.pubkey) with
    | none =>
      Except.error (SolError.TransactionBuildError "account not in account keys")
    | some idx =>
      match accountIndexLoop account_keys rest with
      | Except.error e => Except.error e
      | Except.ok idxs => Except.ok (idx % 256 :: idxs)

/-- The instruction-compilation loop of `compile_transaction`: for each
instruction, the program id's index then its account indices. -/
def compileIxLoop (account_keys : List (List Nat)) :
    List SolInstruction → Except SolError (List CompiledInstruction)
  | [] => Except.ok []
  | ix :: rest =>
    match account_keys.findIdx? (fun k => k = ix.program_id) with
    | none =>
      Except.error (SolError.TransactionBuildError "program_id not in account keys")
    | some pidx =>
      match accountIndexLoop account_keys ix.accounts with
      | Except.error e => Except.error e
      | Except.ok idxs =>
        match compileIxLoop account_keys rest with
        | Except.error e => Except.error e
        | Except.ok compiled =>
          Except.ok
            (({ program_id_index := pidx % 256, account_indices := idxs,
                data := ix.data } : CompiledInstruction) :: compiled)

/-- `compile_transaction` from chain-sol/src/transaction.rs. -/
def compile_transaction (instructions : List SolInstruction)
    (fee_payer : List Nat) (recent_blockhash : List Nat) :
    Except SolError SolTransaction :=
  let entries := compileEntries instructions fee_payer
  let num_signers := (entries.filter (fun e => e.is_signer)).length % 256
  let num_readonly_signed :=
    (entries.filter (fun e => e.is_signer && !e.is_writable)).length % 256
  let num_readonly_unsigned :=
    (entries.filter (fun e => !e.is_signer && !e.is_writable)).length % 256
  let account_keys := entries.map (fun e => e.pubkey)
  match compileIxLoop account_keys instructions with
  | Except.error e => Except.error e
  | Except.ok compiled =>
    Except.ok
      { account_keys := account_keys,
        num_required_signatures := num_signers,
        num_readonly_signed := num_readonly_signed,
        num_readonly_unsigned := num_readonly_unsigned,
        recent_blockhash := recent_blockhash,
        compiled_instructions := compiled }

/-- Little-endian byte encoding, `width` bytes (`to_le_bytes`). -/
def leBytes (width n : Nat) : List Nat :=
  (List.range width).map (fun i => n / 256 ^ i % 256)

/-- `build_system_transfer_instruction` from chain-sol/src/transaction.rs. -/
def build_system_transfer_instruction (from_pubkey to_pubkey : List Nat)
    (lamports : Nat) : SolInstruction :=
  { program_id := SYSTEM_PROGRAM_ID,
    accounts := [⟨from_pubkey, true, true⟩, ⟨to_pubkey, false, true⟩],
    data := leBytes 4 SYSTEM_TRANSFER_IX_INDEX ++ leBytes 8 lamports }

/-- `build_sol_transfer` from chain-sol/src/transaction.rs. -/
def build_sol_transfer (from_pubkey to_pubkey : List Nat) (lamports : Nat)
    (recent_blockhash : List Nat) : Except SolError SolTransaction :=
  if lamports = 0 then
    Except.error (SolError.TransactionBuildError "lamports must be > 0")
  else
    compile_transaction
      [build_system_transfer_instruction from_pubkey to_pubkey lamports]
      from_pubkey recent_blockhash

/-- `sign_sol_raw_transaction` from chain-sol/src/transaction.rs.
`pubkeyOf` stands for `SigningKey::from_bytes(..).verifying_key().to_bytes()`
and `signFn` for `signing_key.sign(message)` (both `ed25519-dalek`); the
splice `signed_tx[sig_offset..sig_offset + 64].copy_from_slice(..)` is the
take/append/drop below (dalek signatures are exactly 64 bytes). -/
def sign_sol_raw_transaction (pubkeyOf : List Nat → List Nat)
    (signFn : List Nat → List Nat → List Nat)
    (private_key : List Nat) (raw_tx : List Nat) : Except SolError (List Nat) :=
  let our_pubkey := pubkeyOf private_key
  match decode_compact_u16 raw_tx with
  | Except.error e => Except.error e
  | Except.ok (num_sigs, compact_len) =>
    if num_sigs = 0 then
      Except.error (SolError.TransactionBuildError "transaction has zero signatures")
    else
      let sigs_start := compact_len
      let sigs_end := sigs_start + num_sigs * 64
      if raw_tx.length < sigs_end then
        Except.error (SolError.SerializationError
          "transaction too short: signature slots exceed length")
      else
        let message_bytes := raw_tx.drop sigs_end
        if message_bytes.length < 4 then
          Except.error (SolError.SerializationError "transaction message too short")
        else
          let num_required_sigs := message_bytes.getD 0 0
          match decode_compact_u16 (message_bytes.drop 3) with
          | Except.error e => Except.error e
          | Except.ok (num_accounts, accounts_compact_len) =>
            let accounts_start := 3 + accounts_compact_len
            let accounts_end := accounts_start + num_accounts * 32
            if message_bytes.length < accounts_end then
              Except.error (SolError.SerializationError
                "transaction message too short for account keys")
            else
              match (List.range (min num_required_sigs num_accounts)).find?
                  (fun i => (message_bytes.drop (accounts_start + i * 32)).take 32
                    = our_pubkey) with
              | none => Except.error (SolError.SigningError
                  "wallet pubkey not found in transaction signers")
              | some signer_idx =>
                let signature := signFn private_key message_bytes
                let sig_offset := sigs_start + signer_idx * 64
                Except.ok (raw_tx.take sig_offset ++ signature
                  ++ raw_tx.drop (sig_offset + 64))

/-- `TOKEN_PROGRAM_ID` from chain-sol/src/spl_token.rs. -/
def TOKEN_PROGRAM_ID : List Nat :=
  [0x06, 0xdd, 0xf6, 0xe1, 0xd7, 0x65, 0xa1, 0x93, 0xd9, 0xcb, 0xe1, 0x46,
   0xce, 0xeb, 0x79, 0xac, 0x1c, 0xb4, 0x85, 0xed, 0x5f, 0x5b, 0x37, 0x91,
   0x3a, 0x8c, 0xf5, 0x85, 0x7e, 0xff, 0x00, 0xa9]

/-- `ASSOCIATED_TOKEN_PROGRAM_ID` from chain-sol/src/spl_token.rs. -/
def ASSOCIATED_TOKEN_PROGRAM_ID : List Nat :=
  [0x8c, 0x97, 0x25, 0x8f, 0x4e, 0x24, 0x89, 0xf1, 0xbb, 0x3d, 0x10, 0x29,
   0x14, 0x8e, 0x0d, 0x83, 0x0b, 0x5a, 0x13, 0x99, 0xda, 0xff, 0x10, 0x84,
   0x04, 0x8e, 0x7b, 0xd8, 0xdb, 0xe9, 0xf8, 0x59]

/-- `PDA_MARKER` from chain-sol/src/spl_token.rs: the ASCII bytes of
"ProgramDerivedAddress". -/
def PDA_MARKER : List Nat := "ProgramDerivedAddress".toList.map Char.toNat

/-- `build_spl_transfer` from chain-sol/src/spl_token.rs. -/
def build_spl_transfer (from_token_account to_token_account owner : List Nat)
    (amount : Nat) (_decimals : Nat) : Except SolError SolInstruction :=
  if amount = 0 then
    Except.error (SolError.TransactionBuildError "SPL transfer amount must be > 0")
  else
    Except.ok
      { program_id := TOKEN_PROGRAM_ID,
        accounts := [⟨from_token_account, false, true⟩,
          ⟨to_token_account, false, true⟩, ⟨owner, true, false⟩],
        data := 3 :: leBytes 8 amount }

/-- `try_create_program_address` from chain-sol/src/spl_token.rs.  `sha256`
stands for the `sha2` crate's SHA-256 and `is_on_curve` for
`curve25519-dalek` decompression success. -/
def try_create_program_address (sha256 : List Nat → List Nat)
    (is_on_curve : List Nat → Bool) (seeds : List (List Nat))
    (bump_seed : List Nat) (program_id : List Nat) : Option (List Nat) :=
  let hash := sha256 (seeds.flatten ++ bump_seed ++ program_id ++ PDA_MARKER)
  if is_on_curve hash then none else some hash

/-- The `for bump in (0u8..=255).rev()` loop of `find_program_address`,
counting the current bump down structurally. -/
def findBumpLoop (sha256 : List Nat → List Nat) (is_on_curve : List Nat → Bool)
    (seeds : List (List Nat)) (program_id : List Nat) :
    Nat → Except SolError (List Nat × Nat)
  | 0 =>
    match try_create_program_address sha256 is_on_curve seeds [0] program_id with
    | some address => Except.ok (address, 0)
    | none => Except.error (SolError.InvalidAddress "could not find valid PDA bump seed")
  | b + 1 =>
    match try_create_program_address sha256 is_on_curve seeds [b + 1] program_id with
    | some address => Except.ok (address, b + 1)
    | none => findBumpLoop sha256 is_on_curve seeds program_id b

/-- `find_program_address` from chain-sol/src/spl_token.rs. -/
def find_program_address (sha256 : List Nat → List Nat)
    (is_on_curve : List Nat → Bool) (seeds : List (List Nat))
    (program_id : List Nat) : Except SolError (List Nat × Nat) :=
  findBumpLoop sha256 is_on_curve seeds program_id 255

/-- `derive_associated_token_address` from chain-sol/src/spl_token.rs. -/
def derive_associated_token_address (sha256 : List Nat → List Nat)
    (is_on_curve : List Nat → Bool) (wallet mint : List Nat) :
    Except SolError (List Nat) :=
  (find_program_address sha256 is_on_curve [wallet, TOKEN_PROGRAM_ID, mint]
    ASSOCIATED_TOKEN_PROGRAM_ID).map (fun r => r.1)

/-- The candidate PDA bytes for a given bump seed: the hash of
seeds ‖ bump ‖ program id ‖ "ProgramDerivedAddress" (spec helper). -/
def pdaHashAt (sha256 : List Nat → List Nat) (seeds : List (List Nat))
    (program_id : List Nat) (bump : Nat) : List Nat :=
  sha256 (seeds.flatten ++ [bump] ++ program_id ++ PDA_MARKER)

end Sol

/-! ## chain-eth: EIP-1559 unsigned-payload encoding (transaction.rs)

`alloy_rlp`'s derived encoding of the nine-field unsigned struct is the RLP
list of: minimal big-endian integers (u64/u128), the 20-byte `to` address as a
byte string (the repo's manual `RlpAddress` impl), the `data: Vec<u8>` field
through the blanket `Vec<T>` impl — an RLP *list* whose items are the bytes
encoded as integers (the repo's `Vec<AccessListItem>` and
`Vec<RlpFixedBytes<32>>` fields force that blanket impl, and coherence then
rules out a byte-string `Vec<u8>` impl) — and the empty access list. -/

/-- `EthError` from chain-eth/src/error.rs. -/
inductive EthError where
  | InvalidPrivateKey : String → EthError
  | InvalidPublicKey : String → EthError
  | InvalidAddress : String → EthError
  | TransactionBuildError : String → EthError
  | SigningError : String → EthError
  | EncodingError : String → EthError
  | UnsupportedChain : Nat → EthError
deriving DecidableEq, Repr

namespace Eth

/-- `EthTransaction` from chain-eth/src/transaction.rs. -/
structure EthTransaction where
  chain_id : Nat
  nonce : Nat
  max_priority_fee_per_gas : Nat
  max_fee_per_gas : Nat
  gas_limit : Nat
  «to» : String
  value : Nat
  data : List Nat
deriving DecidableEq, Repr

/-- Minimal big-endian bytes of `n` (leading zeros stripped; `0` is empty). -/
def minimalBE (n : Nat) : List Nat :=
  if h : n = 0 then [] else minimalBE (n / 256) ++ [n % 256]
termination_by n
decreasing_by exact Nat.div_lt_self (Nat.pos_of_ne_zero h) (by omega)

/-- RLP encoding of a byte string. -/
def rlpBytes : List Nat → List Nat
  | [b] => if b < 0x80 then [b] else [0x81, b]
  | bs =>
    if bs.length ≤ 55 then (0x80 + bs.length) :: bs
    else (0xb7 + (minimalBE bs.length).length) :: (minimalBE bs.length ++ bs)

/-- RLP encoding of an unsigned integer: its minimal big-endian bytes as a
byte string (zero encodes as the empty string). -/
def rlpNat (n : Nat) : List Nat := rlpBytes (minimalBE n)

/-- RLP list framing around an already-encoded payload. -/
def rlpList (payload : List Nat) : List Nat :=
  if payload.length ≤ 55 then (0xc0 + payload.length) :: payload
  else (0xf7 + (minimalBE payload.length).length) :: (minimalBE payload.length ++ payload)

/-- The hex body of a `0x`-prefixed address: must be 40 hex characters. -/
def parseAddressBody (rest : List Char) : Except EthError (List Nat) :=
  if rest.length ≠ 40 then
    Except.error (EthError.InvalidAddress
      ("expected 40 hex characters, got " ++ Nat.repr rest.length))
  else
    match hexDecode? rest with
    | none => Except.error (EthError.InvalidAddress "invalid hex")
    | some bytes => Except.ok bytes

/-- `parse_to_bytes` from chain-eth/src/transaction.rs (strip `0x`/`0X`,
require 40 hex chars, hex-decode; the embedded "invalid hex" message drops
the `hex` crate's description text). -/
def parse_to_bytes (address : String) : Except EthError (List Nat) :=
  match address.toList with
  | '0' :: 'x' :: rest => parseAddressBody rest
  | '0' :: 'X' :: rest => parseAddressBody rest
  | _ => Except.error (EthError.InvalidAddress "address must start with 0x")

/-- `alloy_rlp`'s blanket `Vec<T>` encoding at `T = u8` (`encode_list`): an
RLP list whose payload is the concatenation of the items' integer
encodings. -/
def rlpVecU8 (ns : List Nat) : List Nat := rlpList (ns.map rlpNat).flatten

/-- `encode_unsigned_tx` from chain-eth/src/transaction.rs:
`0x02 || rlp([chain_id, nonce, max_priority_fee_per_gas, max_fee_per_gas,
gas_limit, to, value, data, empty access list])`, the `data: Vec<u8>` field
going through the blanket `Vec<T>` list impl. -/
def encode_unsigned_tx (tx : EthTransaction) : Except EthError (List Nat) :=
  match parse_to_bytes tx.«to» with
  | Except.error e => Except.error e
  | Except.ok to_bytes =>
    let payload := rlpNat tx.chain_id ++ rlpNat tx.nonce
      ++ rlpNat tx.max_priority_fee_per_gas ++ rlpNat tx.max_fee_per_gas
      ++ rlpNat tx.gas_limit ++ rlpBytes to_bytes ++ rlpNat tx.value
      ++ rlpVecU8 tx.data ++ rlpList []
    Except.ok (0x02 :: rlpList payload)

/-- Big-endian value of a byte list. -/
def beToNat (bs : List Nat) : Nat := bs.foldl (fun acc b => acc * 256 + b) 0

/-- Partial RLP decoder for a short-form integer item: the value and the
remaining bytes. -/
def rlpDecodeNat? : List Nat → Option (Nat × List Nat)
  | [] => none
  | b :: rest =>
    if b < 0x80 then some (b, rest)
    else if b ≤ 0xb7 then
      let len := b - 0x80
      if rest.length < len then none
      else some (beToNat (rest.take len), rest.drop len)
    else none

/-- Skip an RLP list header, returning the bytes of the payload onward. -/
def rlpSkipListHeader? : List Nat → Option (List Nat)
  | [] => none
  | b :: rest =>
    if b < 0xc0 then none
    else if b ≤ 0xf7 then some rest
    else some (rest.drop (b - 0xf7))

/-- Recover (chain_id, nonce), the first two RLP fields, from an encoded
unsigned EIP-1559 payload. -/
def decodeChainIdNonce? (bytes : List Nat) : Option (Nat × Nat) :=
  match bytes with
  | 2 :: rest => do
    let payload ← rlpSkipListHeader? rest
    let p1 ← rlpDecodeNat? payload
    let p2 ← rlpDecodeNat? p1.2
    some (p1.1, p2.1)
  | _ => none

/-- Validity of an `EthTransaction`: the Rust field types' ranges. -/
def ValidEthTx (tx : EthTransaction) : Prop :=
  tx.chain_id < 2 ^ 64 ∧ tx.nonce < 2 ^ 64 ∧
  tx.max_priority_fee_per_gas < 2 ^ 128 ∧ tx.max_fee_per_gas < 2 ^ 128 ∧
  tx.gas_limit < 2 ^ 64 ∧ tx.value < 2 ^ 128 ∧ ∀ b ∈ tx.data, b < 256

end Eth

/-! ## Theorems -/

universe u_1 u_2

theorem except_bind_ok {ε : Type u_1} {α β : Type u_2} (a : α) (f : α → Except ε β) :
    ((Except.ok a : Except ε α) >>= f) = f a := rfl

theorem except_bind_error {ε : Type u_1} {α β : Type u_2} (e : ε) (f : α → Except ε β) :
    ((Except.error e : Except ε α) >>= f) = (Except.error e : Except ε β) := rfl

namespace Btc

theorem selectLoop_inr_spec (target_sat fee_rate : Nat) :
    ∀ (l sel : List Utxo) (tot : Nat) (s : UtxoSelection),
      tot = sumAmounts sel →
      selectLoop target_sat fee_rate l sel tot = Sum.inr s →
      s.total_sat = sumAmounts s.selected ∧
        target_sat + estimate_fee s.selected.length 2 fee_rate ≤ s.total_sat := by
  intro l
  induction l with
  | nil => intro sel tot s _ h; simp [selectLoop] at h
  | cons u rest ih =>
    intro sel tot s hinv h
    simp only [selectLoop] at h
    split at h
    · rename_i hle
      cases h
      constructor
      · simp [sumAmounts, hinv]
      · exact hle
    · exact ih (sel ++ [u]) (tot + u.amount_sat) s
        (by simp [sumAmounts, hinv]) h

theorem selectLoop_inl_spec (target_sat fee_rate : Nat) :
    ∀ (l sel : List Utxo) (tot : Nat) (sel₂ : List Utxo) (tot₂ : Nat),
      selectLoop target_sat fee_rate l sel tot = Sum.inl (sel₂, tot₂) →
      sel₂ = sel ++ l ∧ tot₂ = tot + sumAmounts l := by
  intro l
  induction l with
  | nil =>
    intro sel tot sel₂ tot₂ h
    simp [selectLoop] at h
    simp [sumAmounts, h.1.symm, h.2.symm]
  | cons u rest ih =>
    intro sel tot sel₂ tot₂ h
    simp only [selectLoop] at h
    split at h
    · cases h
    · have := ih (sel ++ [u]) (tot + u.amount_sat) sel₂ tot₂ h
      constructor
      · simp [this.1]
      · simp [this.2, sumAmounts]
        ring

theorem sumAmounts_sortUtxosDesc (utxos : List Utxo) :
    sumAmounts (sortUtxosDesc utxos) = sumAmounts utxos := by
  have hperm : (sortUtxosDesc utxos).Perm utxos := List.perm_insertionSort _ _
  exact List.Perm.sum_eq (hperm.map (·.amount_sat))

theorem length_sortUtxosDesc (utxos : List Utxo) :
    (sortUtxosDesc utxos).length = utxos.length :=
  (List.perm_insertionSort _ _).length_eq

theorem select_utxos_ok_spec (utxos : List Utxo) (target_sat fee_rate : Nat)
    (sel : UtxoSelection) (h : select_utxos utxos target_sat fee_rate = Except.ok sel) :
    sel.total_sat = sumAmounts sel.selected ∧
      target_sat + estimate_fee sel.selected.length 2 fee_rate ≤ sel.total_sat := by
  unfold select_utxos at h
  split at h
  · cases h
  · rename_i hne
    rcases hloop : selectLoop target_sat fee_rate (sortUtxosDesc utxos) [] 0 with p | s
    · rcases p with ⟨selected, total⟩
      rw [hloop] at h
      simp only at h
      have hspec := selectLoop_inl_spec target_sat fee_rate
        (sortUtxosDesc utxos) [] 0 selected total hloop
      split at h
      · rename_i hcover
        cases h
        refine ⟨?_, hcover⟩
        simp [hspec.1, hspec.2, sumAmounts]
      · cases h
    · rw [hloop] at h
      simp only [Except.ok.injEq] at h
      have := selectLoop_inr_spec target_sat fee_rate
        (sortUtxosDesc utxos) [] 0 s (by simp [sumAmounts]) hloop
      rw [← h]
      exact ⟨this.1, this.2⟩

/-- C1: whenever `select_utxos` returns successfully, the total value of the
returned selection (its `total_sat`, which equals the sum of the selected
UTXO amounts) is at least the target amount plus
`estimate_fee(selection.len(), 2, fee_rate)`. -/
theorem select_utxos_covers_target_plus_fee
    (utxos : List Utxo) (target_sat fee_rate : Nat) (sel : UtxoSelection)
    (h : select_utxos utxos target_sat fee_rate = Except.ok sel) :
    sel.total_sat = sumAmounts sel.selected ∧
      target_sat + estimate_fee sel.selected.length 2 fee_rate ≤ sumAmounts sel.selected := by
  have := select_utxos_ok_spec utxos target_sat fee_rate sel h
  exact ⟨this.1, this.1 ▸ this.2⟩

/-- Witness for C1 at a concrete input. -/
theorem select_utxos_covers_target_plus_fee_witness :
    select_utxos [⟨"a", 0, 100000, []⟩] 40000 1 =
      Except.ok ⟨[⟨"a", 0, 100000, []⟩], 100000⟩ ∧
    40000 + estimate_fee 1 2 1 ≤ sumAmounts [⟨"a", 0, 100000, []⟩] :=
  ⟨rfl, (select_utxos_covers_target_plus_fee [⟨"a", 0, 100000, []⟩] 40000 1
    ⟨[⟨"a", 0, 100000, []⟩], 100000⟩ rfl).2⟩

/-- C3 counterexample: a UTXO set whose full accumulation fails the 1-output
fee check, yet `select_utxos` succeeds (an earlier prefix already passed the
2-output check), so it does not fail at all — let alone with an
`InsufficientFunds` variant, which `BtcError` does not even have. -/
theorem select_utxos_insufficient_claim_counterexample :
    sumAmounts [⟨"aa", 0, 241, []⟩, ⟨"bb", 0, 1, []⟩]
        < 100 + estimate_fee 2 1 1 ∧
    select_utxos [⟨"aa", 0, 241, []⟩, ⟨"bb", 0, 1, []⟩] 100 1 =
      Except.ok ⟨[⟨"aa", 0, 241, []⟩], 241⟩ :=
  ⟨by decide, rfl⟩

/-- C3 (amended): whenever `select_utxos` fails on a non-empty UTXO set, the
error is `BtcError::TransactionBuildError` whose message reports the available
total (sum of all UTXO amounts) and the needed amount (target plus the
2-output — not 1-output — fee estimate over the whole set). -/
theorem select_utxos_failure_is_transaction_build_error
    (utxos : List Utxo) (target_sat fee_rate : Nat) (e : BtcError)
    (hne : utxos ≠ []) (h : select_utxos utxos target_sat fee_rate = Except.error e) :
    e = BtcError.TransactionBuildError
      (insufficientFundsMessage (sumAmounts utxos) target_sat
        (estimate_fee utxos.length 2 fee_rate)) := by
  unfold select_utxos at h
  split at h
  · rename_i hempty
    exact absurd (List.isEmpty_iff.mp hempty) hne
  · rcases hloop : selectLoop target_sat fee_rate (sortUtxosDesc utxos) [] 0 with p | s
    · rcases p with ⟨selected, total⟩
      rw [hloop] at h
      simp only at h
      have hspec := selectLoop_inl_spec target_sat fee_rate
        (sortUtxosDesc utxos) [] 0 selected total hloop
      split at h
      · cases h
      · simp only [Except.error.injEq] at h
        subst h
        have hsel : selected = sortUtxosDesc utxos := by simpa using hspec.1
        have htot : total = sumAmounts (sortUtxosDesc utxos) := by simpa using hspec.2
        rw [hsel, htot, sumAmounts_sortUtxosDesc, length_sortUtxosDesc]
    · rw [hloop] at h
      cases h

/-- Witness for the amended C3 at a concrete failing input. -/
theorem select_utxos_failure_is_transaction_build_error_witness :
    ([⟨"a", 0, 1000, []⟩] ≠ ([] : List Utxo)) ∧
    select_utxos [⟨"a", 0, 1000, []⟩] 500000 1 =
      Except.error (BtcError.TransactionBuildError
        "insufficient funds: have 1000 sat, need 500141 sat (target 500000 + fee 141)") ∧
    (BtcError.TransactionBuildError
        "insufficient funds: have 1000 sat, need 500141 sat (target 500000 + fee 141)") =
      BtcError.TransactionBuildError
        (insufficientFundsMessage (sumAmounts [⟨"a", 0, 1000, []⟩]) 500000
          (estimate_fee 1 2 1)) :=
  ⟨by simp, rfl,
    select_utxos_failure_is_transaction_build_error [⟨"a", 0, 1000, []⟩] 500000 1 _
      (by simp) rfl⟩

end Btc

namespace Btc

theorem build_p2wpkh_transaction_ok_spec
    (parseAddress : String → BtcNetwork → Except String (List Nat))
    (parseTxid : String → Except String (List Nat))
    (utxos : List Utxo) (recipient : String) (amount_sat : Nat)
    (change_address : String) (fee_rate : Nat) (network : BtcNetwork)
    (utx : UnsignedBtcTx)
    (hb : build_p2wpkh_transaction parseAddress parseTxid utxos recipient
      amount_sat change_address fee_rate network = Except.ok utx) :
    ∃ sel recipient_spk change_spk,
      select_utxos utxos amount_sat fee_rate = Except.ok sel ∧
      parseAddress recipient network = Except.ok recipient_spk ∧
      parseAddress change_address network = Except.ok change_spk ∧
      sel.total_sat = sumAmounts sel.selected ∧
      amount_sat + estimate_fee sel.selected.length 2 fee_rate ≤ sel.total_sat ∧
      utx.tx.output =
        (if 546 < sel.total_sat - (amount_sat + estimate_fee sel.selected.length 2 fee_rate) then
          [({ value := amount_sat, script_pubkey := recipient_spk } : TxOut),
           ({ value := sel.total_sat
                - (amount_sat + estimate_fee sel.selected.length 2 fee_rate),
              script_pubkey := change_spk } : TxOut)]
        else
          [({ value := amount_sat, script_pubkey := recipient_spk } : TxOut)]) := by
  unfold build_p2wpkh_transaction at hb
  rcases hpr : parseAddress recipient network with e | rspk <;> rw [hpr] at hb
  · simp [except_bind_error] at hb
  rcases hpc : parseAddress change_address network with e | cspk <;> rw [hpc] at hb
  · simp [except_bind_ok, except_bind_error] at hb
  rcases hsel : select_utxos utxos amount_sat fee_rate with e | sel <;> rw [hsel] at hb
  · simp [except_bind_ok, except_bind_error] at hb
  simp only [except_bind_ok] at hb
  rcases hmap : buildInputs parseTxid sel.selected with e | pairs <;> rw [hmap] at hb
  · simp [except_bind_ok, except_bind_error] at hb
  simp only [except_bind_ok, Except.ok.injEq] at hb
  have hspec := select_utxos_ok_spec utxos amount_sat fee_rate sel hsel
  refine ⟨sel, rspk, cspk, rfl, rfl, rfl, hspec.1, hspec.2, ?_⟩
  rw [← hb]

/-- C9: for every transaction built by `build_p2wpkh_transaction`, the sum of
the output values never exceeds the total of the selected inputs (the implied
fee is never negative); in the two-output case the recipient output is
exactly the requested amount and the change output is total minus amount
minus the 2-output fee estimate. -/
theorem build_p2wpkh_outputs_bounded_by_inputs
    (parseAddress : String → BtcNetwork → Except String (List Nat))
    (parseTxid : String → Except String (List Nat))
    (utxos : List Utxo) (recipient : String) (amount_sat : Nat)
    (change_address : String) (fee_rate : Nat) (network : BtcNetwork)
    (utx : UnsignedBtcTx)
    (hb : build_p2wpkh_transaction parseAddress parseTxid utxos recipient
      amount_sat change_address fee_rate network = Except.ok utx) :
    ∃ sel, select_utxos utxos amount_sat fee_rate = Except.ok sel ∧
      sel.total_sat = sumAmounts sel.selected ∧
      (utx.tx.output.map (fun o => o.value)).sum ≤ sumAmounts sel.selected ∧
      (utx.tx.output.length = 2 →
        utx.tx.output.map (fun o => o.value) =
          [amount_sat, sel.total_sat
            - (amount_sat + estimate_fee sel.selected.length 2 fee_rate)]) := by
  obtain ⟨sel, rspk, cspk, hsel, _, _, htot, hfee, houts⟩ :=
    build_p2wpkh_transaction_ok_spec parseAddress parseTxid utxos recipient
      amount_sat change_address fee_rate network utx hb
  refine ⟨sel, hsel, htot, ?_, ?_⟩
  · rw [houts]
    by_cases hc : 546 < sel.total_sat
        - (amount_sat + estimate_fee sel.selected.length 2 fee_rate)
    · rw [if_pos hc]
      simp only [List.map_cons, List.map_nil, List.sum_cons, List.sum_nil]
      omega
    · rw [if_neg hc]
      simp only [List.map_cons, List.map_nil, List.sum_cons, List.sum_nil]
      omega
  · intro hlen
    rw [houts] at hlen ⊢
    by_cases hc : 546 < sel.total_sat
        - (amount_sat + estimate_fee sel.selected.length 2 fee_rate)
    · rw [if_pos hc] at hlen ⊢
      simp
    · rw [if_neg hc] at hlen
      simp at hlen

/-- Witness for C9 at a concrete two-output build. -/
theorem build_p2wpkh_outputs_bounded_by_inputs_witness :
    ∃ sel, select_utxos [⟨"t", 0, 100000, [170]⟩] 50000 1 = Except.ok sel ∧
      sel.total_sat = sumAmounts sel.selected ∧
      (([({ value := 50000, script_pubkey := [1] } : TxOut),
         ({ value := 49859, script_pubkey := [1] } : TxOut)]).map (fun o => o.value)).sum
        ≤ sumAmounts sel.selected ∧
      (([({ value := 50000, script_pubkey := [1] } : TxOut),
         ({ value := 49859, script_pubkey := [1] } : TxOut)]).length = 2 →
        ([({ value := 50000, script_pubkey := [1] } : TxOut),
          ({ value := 49859, script_pubkey := [1] } : TxOut)]).map (fun o => o.value) =
          [50000, sel.total_sat - (50000 + estimate_fee sel.selected.length 2 1)]) :=
  build_p2wpkh_outputs_bounded_by_inputs (fun _ _ => Except.ok [1])
    (fun _ => Except.ok [2]) [⟨"t", 0, 100000, [170]⟩] "r" 50000 "c" 1
    BtcNetwork.Mainnet _ rfl

end Btc

namespace Zec

theorem build_transparent_transaction_ok_spec
    (address_to_pubkey_hash : String → Except ZecError (List Nat))
    (utxos : List ZecUtxo) (recipient : String) (amount_zat : Nat)
    (change_address : String) (fee_rate : Nat) (network : ZecNetwork)
    (expiry_height : Nat) (ztx : UnsignedZecTx)
    (hz : build_transparent_transaction address_to_pubkey_hash utxos recipient
      amount_zat change_address fee_rate network expiry_height = Except.ok ztx) :
    ∃ recipient_hash change_hash,
      address_to_pubkey_hash recipient = Except.ok recipient_hash ∧
      address_to_pubkey_hash change_address = Except.ok change_hash ∧
      amount_zat + estimate_fee (zecSelect utxos amount_zat fee_rate).1.length 1 fee_rate
        ≤ (zecSelect utxos amount_zat fee_rate).2 ∧
      ztx.outputs =
        (if DUST_THRESHOLD < (zecSelect utxos amount_zat fee_rate).2
            - (amount_zat + estimate_fee (zecSelect utxos amount_zat fee_rate).1.length 2 fee_rate) then
          [({ amount := amount_zat, script_pubkey := p2pkh_script recipient_hash } : TxOutput),
           ({ amount := (zecSelect utxos amount_zat fee_rate).2
                - (amount_zat + estimate_fee (zecSelect utxos amount_zat fee_rate).1.length 2 fee_rate),
              script_pubkey := p2pkh_script change_hash } : TxOutput)]
        else
          [({ amount := amount_zat, script_pubkey := p2pkh_script recipient_hash } : TxOutput)]) := by
  unfold build_transparent_transaction at hz
  rcases hpr : address_to_pubkey_hash recipient with e | rhash <;> rw [hpr] at hz
  · simp [except_bind_error] at hz
  rcases hpc : address_to_pubkey_hash change_address with e | chash <;> rw [hpc] at hz
  · simp [except_bind_ok, except_bind_error] at hz
  simp only [except_bind_ok] at hz
  split at hz
  · cases hz
  · rename_i hcheck
    push_neg at hcheck
    rcases hmap : buildZecInputs (zecSelect utxos amount_zat fee_rate).1 with e | inputs <;>
      rw [hmap] at hz
    · simp [except_bind_ok, except_bind_error] at hz
    simp only [except_bind_ok, Except.ok.injEq] at hz
    refine ⟨rhash, chash, rfl, rfl, hcheck, ?_⟩
    rw [← hz]

end Zec

/-- C2: for every successful BTC or ZEC transparent build, a change output is
present iff total selected input value minus the send amount minus the
2-output fee estimate exceeds 546 base units; otherwise the transaction has
exactly one output, the recipient's, carrying exactly the requested amount
(the shortfall being absorbed into the fee). -/
theorem btc_zec_change_output_iff_above_dust
    (parseAddress : String → BtcNetwork → Except String (List Nat))
    (parseTxid : String → Except String (List Nat))
    (utxos : List Utxo) (recipient : String) (amount_sat : Nat)
    (change_address : String) (fee_rate : Nat) (network : BtcNetwork)
    (utx : Btc.UnsignedBtcTx)
    (address_to_pubkey_hash : String → Except ZecError (List Nat))
    (zutxos : List Zec.ZecUtxo) (zrecipient : String) (zamount : Nat)
    (zchange : String) (zrate : Nat) (znetwork : ZecNetwork) (zexpiry : Nat)
    (ztx : Zec.UnsignedZecTx)
    (hb : Btc.build_p2wpkh_transaction parseAddress parseTxid utxos recipient
      amount_sat change_address fee_rate network = Except.ok utx)
    (hz : Zec.build_transparent_transaction address_to_pubkey_hash zutxos
      zrecipient zamount zchange zrate znetwork zexpiry = Except.ok ztx) :
    (∃ sel, Btc.select_utxos utxos amount_sat fee_rate = Except.ok sel ∧
      (utx.tx.output.length = 2 ↔
        546 < sel.total_sat
          - (amount_sat + Btc.estimate_fee sel.selected.length 2 fee_rate)) ∧
      (utx.tx.output.length = 1 ↔
        ¬ 546 < sel.total_sat
          - (amount_sat + Btc.estimate_fee sel.selected.length 2 fee_rate)) ∧
      utx.tx.output.head?.map (fun o => o.value) = some amount_sat) ∧
    ((ztx.outputs.length = 2 ↔
        546 < (Zec.zecSelect zutxos zamount zrate).2
          - (zamount + Zec.estimate_fee (Zec.zecSelect zutxos zamount zrate).1.length 2 zrate)) ∧
      (ztx.outputs.length = 1 ↔
        ¬ 546 < (Zec.zecSelect zutxos zamount zrate).2
          - (zamount + Zec.estimate_fee (Zec.zecSelect zutxos zamount zrate).1.length 2 zrate)) ∧
      ztx.outputs.head?.map (fun o => o.amount) = some zamount) := by
  constructor
  · obtain ⟨sel, rspk, cspk, hsel, _, _, _, _, houts⟩ :=
      Btc.build_p2wpkh_transaction_ok_spec parseAddress parseTxid utxos recipient
        amount_sat change_address fee_rate network utx hb
    refine ⟨sel, hsel, ?_, ?_, ?_⟩ <;> rw [houts] <;>
      by_cases hc : 546 < sel.total_sat
        - (amount_sat + Btc.estimate_fee sel.selected.length 2 fee_rate)
    · rw [if_pos hc]
      exact ⟨fun _ => hc, fun _ => rfl⟩
    · rw [if_neg hc]
      exact ⟨fun h1 => by simp at h1, fun h1 => absurd h1 hc⟩
    · rw [if_pos hc]
      exact ⟨fun h1 => by simp at h1, fun hn => absurd hc hn⟩
    · rw [if_neg hc]
      exact ⟨fun _ => hc, fun _ => rfl⟩
    · rw [if_pos hc]
      rfl
    · rw [if_neg hc]
      rfl
  · obtain ⟨rhash, chash, _, _, _, houts⟩ :=
      Zec.build_transparent_transaction_ok_spec address_to_pubkey_hash zutxos
        zrecipient zamount zchange zrate znetwork zexpiry ztx hz
    have hd : Zec.DUST_THRESHOLD = 546 := rfl
    rw [hd] at houts
    refine ⟨?_, ?_, ?_⟩ <;> rw [houts] <;>
      by_cases hc : 546 < (Zec.zecSelect zutxos zamount zrate).2
        - (zamount + Zec.estimate_fee (Zec.zecSelect zutxos zamount zrate).1.length 2 zrate)
    · rw [if_pos hc]
      exact ⟨fun _ => hc, fun _ => rfl⟩
    · rw [if_neg hc]
      exact ⟨fun h1 => by simp at h1, fun h1 => absurd h1 hc⟩
    · rw [if_pos hc]
      exact ⟨fun h1 => by simp at h1, fun hn => absurd hc hn⟩
    · rw [if_neg hc]
      exact ⟨fun _ => hc, fun _ => rfl⟩
    · rw [if_pos hc]
      rfl
    · rw [if_neg hc]
      rfl

/-- Witness for C2 at concrete one-output BTC and ZEC builds. -/
theorem btc_zec_change_output_iff_above_dust_witness :
    (∃ sel, Btc.select_utxos [⟨"t", 0, 100000, [170]⟩] 99500 1 = Except.ok sel ∧
      (([({ value := 99500, script_pubkey := [1] } : Btc.TxOut)]).length = 2 ↔
        546 < sel.total_sat - (99500 + Btc.estimate_fee sel.selected.length 2 1)) ∧
      (([({ value := 99500, script_pubkey := [1] } : Btc.TxOut)]).length = 1 ↔
        ¬ 546 < sel.total_sat - (99500 + Btc.estimate_fee sel.selected.length 2 1)) ∧
      ([({ value := 99500, script_pubkey := [1] } : Btc.TxOut)]).head?.map
        (fun o => o.value) = some 99500) ∧
    ((([({ amount := 99500,
           script_pubkey := Zec.p2pkh_script (List.replicate 20 3) } : Zec.TxOutput)]).length = 2 ↔
        546 < (Zec.zecSelect
            [⟨"0000000000000000000000000000000000000000000000000000000000000000", 0, 100000, [5]⟩]
            99500 1).2
          - (99500 + Zec.estimate_fee (Zec.zecSelect
              [⟨"0000000000000000000000000000000000000000000000000000000000000000", 0, 100000, [5]⟩]
              99500 1).1.length 2 1)) ∧
      (([({ amount := 99500,
            script_pubkey := Zec.p2pkh_script (List.replicate 20 3) } : Zec.TxOutput)]).length = 1 ↔
        ¬ 546 < (Zec.zecSelect
            [⟨"0000000000000000000000000000000000000000000000000000000000000000", 0, 100000, [5]⟩]
            99500 1).2
          - (99500 + Zec.estimate_fee (Zec.zecSelect
              [⟨"0000000000000000000000000000000000000000000000000000000000000000", 0, 100000, [5]⟩]
              99500 1).1.length 2 1)) ∧
      ([({ amount := 99500,
           script_pubkey := Zec.p2pkh_script (List.replicate 20 3) } : Zec.TxOutput)]).head?.map
        (fun o => o.amount) = some 99500) :=
  btc_zec_change_output_iff_above_dust
    (fun _ _ => Except.ok [1]) (fun _ => Except.ok [2])
    [⟨"t", 0, 100000, [170]⟩] "r" 99500 "c" 1 BtcNetwork.Mainnet _
    (fun _ => Except.ok (List.replicate 20 3))
    [⟨"0000000000000000000000000000000000000000000000000000000000000000", 0, 100000, [5]⟩]
    "zr" 99500 "zc" 1 ZecNetwork.Mainnet 500 _ rfl rfl

namespace Sol

theorem encodeCompactLoop_lt_128 (v : Nat) (h : v < 128) :
    encodeCompactLoop v = [v] := by
  rw [encodeCompactLoop]
  rw [shiftRight_7_eq_div]
  have h0 : v / 128 = 0 := Nat.div_eq_of_lt h
  rw [h0]
  simp [land_127_eq_mod, Nat.mod_eq_of_lt h]

theorem encodeCompactLoop_mid (v : Nat) (h1 : 128 ≤ v) (h2 : v < 16384) :
    encodeCompactLoop v = [v % 128 + 128, v / 128] := by
  rw [encodeCompactLoop]
  rw [shiftRight_7_eq_div]
  have hpos : 0 < v / 128 := Nat.div_pos h1 (by norm_num)
  rw [dif_pos hpos]
  rw [land_127_eq_mod, lor_128_eq_add (v % 128) (Nat.mod_lt v (by norm_num))]
  rw [encodeCompactLoop_lt_128 (v / 128) (by omega)]

theorem encodeCompactLoop_hi (v : Nat) (h1 : 16384 ≤ v) (h2 : v < 65536) :
    encodeCompactLoop v = [v % 128 + 128, v / 128 % 128 + 128, v / 16384] := by
  rw [encodeCompactLoop]
  rw [shiftRight_7_eq_div]
  have hpos : 0 < v / 128 := Nat.div_pos (by omega) (by norm_num)
  rw [dif_pos hpos]
  rw [land_127_eq_mod, lor_128_eq_add (v % 128) (Nat.mod_lt v (by norm_num))]
  rw [encodeCompactLoop_mid (v / 128) (by omega) (by omega)]
  have : v / 128 / 128 = v / 16384 := by
    rw [Nat.div_div_eq_div_mul]
  rw [this]

/-- C7: for every `u16` value, decoding the compact-u16 encoding succeeds and
returns the value together with the encoding's length, and the length is 1
byte for values up to 0x7F, 2 bytes up to 0x3FFF, and 3 bytes otherwise. -/
theorem compact_u16_roundtrip (v : Nat) (h : v < 65536) :
    decode_compact_u16 (encode_compact_u16 v) =
      Except.ok (v, (encode_compact_u16 v).length) ∧
    (v ≤ 0x7f → (encode_compact_u16 v).length = 1) ∧
    (0x7f < v → v ≤ 0x3fff → (encode_compact_u16 v).length = 2) ∧
    (0x3fff < v → (encode_compact_u16 v).length = 3) := by
  unfold encode_compact_u16
  rcases Nat.lt_or_ge v 128 with hr | hr
  · rw [encodeCompactLoop_lt_128 v hr]
    refine ⟨?_, fun _ => rfl, fun ha hb => by omega, fun ha => by omega⟩
    unfold decode_compact_u16
    rw [if_neg (by simp)]
    rw [decodeCompactLoop]
    rw [if_neg (by simp)]
    simp only [List.getD_cons_zero]
    rw [land_127_eq_mod, Nat.shiftLeft_zero, Nat.zero_or, Nat.mod_eq_of_lt hr,
      land_128_eq_zero v hr]
    rw [if_pos rfl]
    have hnv : ¬ 65535 < v := by omega
    simp [hnv]
  · rcases Nat.lt_or_ge v 16384 with hr2 | hr2
    · rw [encodeCompactLoop_mid v hr hr2]
      refine ⟨?_, fun ha => by omega, fun _ _ => rfl, fun ha => by omega⟩
      unfold decode_compact_u16
      rw [if_neg (by simp)]
      rw [decodeCompactLoop]
      rw [if_neg (by simp)]
      simp only [List.getD_cons_zero]
      rw [land_127_eq_mod, Nat.shiftLeft_zero, Nat.zero_or]
      have hb0 : (v % 128 + 128) % 128 = v % 128 := by omega
      rw [hb0]
      have hne : (v % 128 + 128) &&& 128 ≠ 0 :=
        land_128_ne_zero (v % 128 + 128) (by omega) (by omega)
      rw [if_neg hne]
      rw [dif_neg (by omega)]
      rw [decodeCompactLoop]
      rw [if_neg (by simp)]
      simp only [List.getD_cons_succ, List.getD_cons_zero]
      rw [land_127_eq_mod, Nat.mod_eq_of_lt (show v / 128 < 128 by omega)]
      rw [lor_shiftLeft_eq_add 7 (v % 128) (v / 128) (by omega)]
      have hv : v % 128 + v / 128 * 2 ^ 7 = v := by
        have := Nat.mod_add_div v 128
        norm_num
        omega
      rw [hv, land_128_eq_zero (v / 128) (by omega)]
      rw [if_pos rfl]
      have hnv : ¬ 65535 < v := by omega
      simp [hnv]
    · rw [encodeCompactLoop_hi v hr2 h]
      refine ⟨?_, fun ha => by omega, fun ha hb => by omega, fun _ => rfl⟩
      unfold decode_compact_u16
      rw [if_neg (by simp)]
      rw [decodeCompactLoop]
      rw [if_neg (by simp)]
      simp only [List.getD_cons_zero]
      rw [land_127_eq_mod, Nat.shiftLeft_zero, Nat.zero_or]
      have hb0 : (v % 128 + 128) % 128 = v % 128 := by omega
      rw [hb0]
      have hne : (v % 128 + 128) &&& 128 ≠ 0 :=
        land_128_ne_zero (v % 128 + 128) (by omega) (by omega)
      rw [if_neg hne]
      rw [dif_neg (by omega)]
      rw [decodeCompactLoop]
      rw [if_neg (by simp)]
      simp only [List.getD_cons_succ, List.getD_cons_zero]
      rw [land_127_eq_mod]
      have hb1 : (v / 128 % 128 + 128) % 128 = v / 128 % 128 := by omega
      rw [hb1]
      rw [lor_shiftLeft_eq_add 7 (v % 128) (v / 128 % 128) (by omega)]
      have hne1 : (v / 128 % 128 + 128) &&& 128 ≠ 0 :=
        land_128_ne_zero (v / 128 % 128 + 128) (by omega) (by omega)
      rw [if_neg hne1]
      rw [dif_neg (by omega)]
      rw [decodeCompactLoop]
      rw [if_neg (by simp)]
      simp only [List.getD_cons_succ, List.getD_cons_zero]
      rw [land_127_eq_mod, Nat.mod_eq_of_lt (show v / 16384 < 128 by omega)]
      rw [lor_shiftLeft_eq_add 14 (v % 128 + v / 128 % 128 * 2 ^ 7) (v / 16384)
        (by norm_num; omega)]
      have hv : v % 128 + v / 128 % 128 * 2 ^ 7 + v / 16384 * 2 ^ 14 = v := by
        norm_num
        omega
      rw [hv, land_128_eq_zero (v / 16384) (by omega)]
      rw [if_pos rfl]
      have hnv : ¬ 65535 < v := by omega
      simp [hnv]

/-- Witness for C7 at the boundary value 65535. -/
theorem compact_u16_roundtrip_witness :
    decode_compact_u16 (encode_compact_u16 65535) =
      Except.ok (65535, (encode_compact_u16 65535).length) ∧
    (65535 ≤ 0x7f → (encode_compact_u16 65535).length = 1) ∧
    (0x7f < 65535 → 65535 ≤ 0x3fff → (encode_compact_u16 65535).length = 2) ∧
    (0x3fff < 65535 → (encode_compact_u16 65535).length = 3) :=
  compact_u16_roundtrip 65535 (by decide)

end Sol

namespace Sol

theorem upsert_keys (es : List AccountEntry) (pk : List Nat) (s w : Bool) :
    (upsert es pk s w).map (fun e => e.pubkey) =
      if pk ∈ es.map (fun e => e.pubkey) then es.map (fun e => e.pubkey)
      else es.map (fun e => e.pubkey) ++ [pk] := by
  induction es with
  | nil => simp [upsert]
  | cons e rest ih =>
    simp only [upsert]
    by_cases he : e.pubkey = pk
    · rw [if_pos he]
      simp [he]
    · rw [if_neg he]
      simp only [List.map_cons, ih]
      have hne : pk ≠ e.pubkey := fun h => he h.symm
      by_cases hm : pk ∈ rest.map (fun e => e.pubkey)
      · rw [if_pos hm, if_pos (by simp [hm])]
      · rw [if_neg hm, if_neg (by simp [hne, hm])]
        simp

theorem mem_upsert_keys (es : List AccountEntry) (pk : List Nat) (s w : Bool)
    (pk' : List Nat) :
    pk' ∈ (upsert es pk s w).map (fun e => e.pubkey) ↔
      pk' ∈ es.map (fun e => e.pubkey) ∨ pk' = pk := by
  rw [upsert_keys]
  split
  · rename_i hm
    exact ⟨Or.inl, fun h => h.elim id (fun hh => hh ▸ hm)⟩
  · simp

theorem upsert_keys_nodup (es : List AccountEntry) (pk : List Nat) (s w : Bool)
    (h : (es.map (fun e => e.pubkey)).Nodup) :
    ((upsert es pk s w).map (fun e => e.pubkey)).Nodup := by
  rw [upsert_keys]
  split
  · exact h
  · rename_i hm
    simp [List.nodup_append, h, hm]

theorem mem_upsert (es : List AccountEntry) (pk : List Nat) (s w : Bool)
    (hnd : (es.map (fun e => e.pubkey)).Nodup) (e' : AccountEntry)
    (h : e' ∈ upsert es pk s w) :
    (e'.pubkey ≠ pk ∧ e' ∈ es) ∨
    (e'.pubkey = pk ∧
      ((pk ∉ es.map (fun e => e.pubkey) ∧ e' = ⟨pk, s, w⟩) ∨
       ∃ e0, e0 ∈ es ∧ e0.pubkey = pk ∧
         e' = ⟨pk, e0.is_signer || s, e0.is_writable || w⟩)) := by
  induction es with
  | nil =>
    simp only [upsert, List.mem_singleton] at h
    subst h
    exact Or.inr ⟨rfl, Or.inl ⟨by simp, rfl⟩⟩
  | cons e rest ih =>
    simp only [List.map_cons, List.nodup_cons] at hnd
    simp only [upsert] at h
    by_cases he : e.pubkey = pk
    · rw [if_pos he] at h
      rcases List.mem_cons.mp h with h1 | h1
      · subst h1
        refine Or.inr ⟨he, Or.inr ⟨e, List.mem_cons_self e rest, he, ?_⟩⟩
        rw [← he]
      · have hpk : e'.pubkey ∈ rest.map (fun e => e.pubkey) :=
          List.mem_map.mpr ⟨e', h1, rfl⟩
        have : e'.pubkey ≠ pk := fun hcontra => by
          rw [← he] at hcontra
          exact hnd.1 (hcontra ▸ hpk)
        exact Or.inl ⟨this, List.mem_cons_of_mem e h1⟩
    · rw [if_neg he] at h
      rcases List.mem_cons.mp h with h1 | h1
      · subst h1
        exact Or.inl ⟨he, List.mem_cons_self e' rest⟩
      · rcases ih hnd.2 h1 with ⟨hne, hmem⟩ | ⟨hpk, hrest⟩
        · exact Or.inl ⟨hne, List.mem_cons_of_mem e hmem⟩
        · refine Or.inr ⟨hpk, ?_⟩
          rcases hrest with ⟨hnm, heq⟩ | ⟨e0, he0m, he0pk, he0eq⟩
          · refine Or.inl ⟨?_, heq⟩
            simp only [List.map_cons, List.mem_cons]
            rintro (hc | hc)
            · exact he hc.symm
            · exact hnm hc
          · exact Or.inr ⟨e0, List.mem_cons_of_mem e he0m, he0pk, he0eq⟩

end Sol

namespace Sol

theorem foldl_upsert_mem_keys (uses : List (List Nat × Bool × Bool)) :
    ∀ (es : List AccountEntry) (pk : List Nat),
    (pk ∈ (uses.foldl (fun es u => upsert es u.1 u.2.1 u.2.2) es).map
        (fun e => e.pubkey)) ↔
      pk ∈ es.map (fun e => e.pubkey) ∨ pk ∈ useKeys uses := by
  induction uses with
  | nil => simp [useKeys]
  | cons u us ih =>
    intro es pk
    simp only [List.foldl_cons]
    rw [ih, mem_upsert_keys]
    simp only [useKeys, List.map_cons, List.mem_cons]
    tauto

theorem foldl_upsert_nodup (uses : List (List Nat × Bool × Bool)) :
    ∀ (es : List AccountEntry),
    (es.map (fun e => e.pubkey)).Nodup →
    ((uses.foldl (fun es u => upsert es u.1 u.2.1 u.2.2) es).map
      (fun e => e.pubkey)).Nodup := by
  induction uses with
  | nil => exact fun es h => h
  | cons u us ih =>
    intro es h
    exact ih _ (upsert_keys_nodup es u.1 u.2.1 u.2.2 h)

theorem foldl_upsert_bits (uses : List (List Nat × Bool × Bool)) :
    ∀ (es : List AccountEntry), (es.map (fun e => e.pubkey)).Nodup →
    ∀ e' ∈ uses.foldl (fun es u => upsert es u.1 u.2.1 u.2.2) es,
    ∃ s0 w0 : Bool,
      ((∃ e0, e0 ∈ es ∧ e0.pubkey = e'.pubkey ∧ s0 = e0.is_signer ∧
          w0 = e0.is_writable) ∨
       (e'.pubkey ∉ es.map (fun e => e.pubkey) ∧ s0 = false ∧ w0 = false)) ∧
      e'.is_signer = (s0 || sigOf uses e'.pubkey) ∧
      e'.is_writable = (w0 || wrOf uses e'.pubkey) := by
  induction uses with
  | nil =>
    intro es _ e' h
    exact ⟨e'.is_signer, e'.is_writable,
      Or.inl ⟨e', h, rfl, rfl, rfl⟩, by simp [sigOf], by simp [wrOf]⟩
  | cons u us ih =>
    intro es hnd e' h
    simp only [List.foldl_cons] at h
    have hnd' := upsert_keys_nodup es u.1 u.2.1 u.2.2 hnd
    obtain ⟨s1, w1, hbase1, hsig1, hwr1⟩ := ih _ hnd' e' h
    have hsig_cons : sigOf (u :: us) e'.pubkey =
        ((decide (u.1 = e'.pubkey) && u.2.1) || sigOf us e'.pubkey) := by
      simp [sigOf]
    have hwr_cons : wrOf (u :: us) e'.pubkey =
        ((decide (u.1 = e'.pubkey) && u.2.2) || wrOf us e'.pubkey) := by
      simp [wrOf]
    rcases hbase1 with ⟨e1, he1m, he1pk, hs1, hw1⟩ | ⟨hnm, hs1, hw1⟩
    · rcases mem_upsert es u.1 u.2.1 u.2.2 hnd e1 he1m with
        ⟨hne, he1es⟩ | ⟨hpk, ⟨hnotin, heq⟩ | ⟨e0, he0m, he0pk, he0eq⟩⟩
      · -- e1 untouched by the upsert for u
        have hu1 : u.1 ≠ e'.pubkey := fun hc => hne (by rw [← he1pk] at hc; exact hc.symm)
        refine ⟨s1, w1, Or.inl ⟨e1, he1es, he1pk, hs1, hw1⟩, ?_, ?_⟩
        · rw [hsig1, hsig_cons]
          simp [hu1]
        · rw [hwr1, hwr_cons]
          simp [hu1]
      · -- e1 is the freshly pushed entry for u
        have hu1 : u.1 = e'.pubkey := by rw [← he1pk, hpk]
        have hs1' : s1 = u.2.1 := by rw [hs1, heq]
        have hw1' : w1 = u.2.2 := by rw [hw1, heq]
        refine ⟨false, false, Or.inr ⟨by rw [← he1pk, hpk]; exact hnotin, rfl, rfl⟩, ?_, ?_⟩
        · rw [hsig1, hsig_cons, hs1']
          simp [hu1]
        · rw [hwr1, hwr_cons, hw1']
          simp [hu1]
      · -- e1 is the OR-updated entry for u, previous entry e0
        have hu1 : u.1 = e'.pubkey := by rw [← he1pk, hpk]
        have hs1' : s1 = (e0.is_signer || u.2.1) := by rw [hs1, he0eq]
        have hw1' : w1 = (e0.is_writable || u.2.2) := by rw [hw1, he0eq]
        refine ⟨e0.is_signer, e0.is_writable,
          Or.inl ⟨e0, he0m, by rw [he0pk, hu1], rfl, rfl⟩, ?_, ?_⟩
        · rw [hsig1, hsig_cons, hs1']
          simp [hu1, Bool.or_assoc]
        · rw [hwr1, hwr_cons, hw1']
          simp [hu1, Bool.or_assoc]
    · -- e'.pubkey was never present while processing u
      have hnm_es : e'.pubkey ∉ es.map (fun e => e.pubkey) := by
        intro hc
        exact hnm ((mem_upsert_keys es u.1 u.2.1 u.2.2 e'.pubkey).mpr (Or.inl hc))
      have hu1 : u.1 ≠ e'.pubkey := by
        intro hc
        exact hnm ((mem_upsert_keys es u.1 u.2.1 u.2.2 e'.pubkey).mpr (Or.inr hc.symm))
      refine ⟨false, false, Or.inr ⟨hnm_es, rfl, rfl⟩, ?_, ?_⟩
      · rw [hsig1, hsig_cons, hs1]
        simp [hu1]
      · rw [hwr1, hwr_cons, hw1]
        simp [hu1]

theorem collectEntries_mem_keys (instructions : List SolInstruction)
    (fee_payer : List Nat) (pk : List Nat) :
    pk ∈ (collectEntries instructions fee_payer).map (fun e => e.pubkey) ↔
      pk ∈ useKeys (accountUses instructions fee_payer) := by
  unfold collectEntries
  rw [foldl_upsert_mem_keys]
  simp

theorem collectEntries_nodup (instructions : List SolInstruction)
    (fee_payer : List Nat) :
    ((collectEntries instructions fee_payer).map (fun e => e.pubkey)).Nodup := by
  unfold collectEntries
  exact foldl_upsert_nodup _ [] (by simp)

theorem collectEntries_bits (instructions : List SolInstruction)
    (fee_payer : List Nat) (e : AccountEntry)
    (h : e ∈ collectEntries instructions fee_payer) :
    e.is_signer = sigOf (accountUses instructions fee_payer) e.pubkey ∧
    e.is_writable = wrOf (accountUses instructions fee_payer) e.pubkey := by
  unfold collectEntries at h
  obtain ⟨s0, w0, hbase, hsig, hwr⟩ :=
    foldl_upsert_bits (accountUses instructions fee_payer) [] (by simp) e h
  rcases hbase with ⟨e0, he0m, _⟩ | ⟨_, hs0, hw0⟩
  · exact absurd he0m (List.not_mem_nil e0)
  · subst hs0
    subst hw0
    simpa using ⟨hsig, hwr⟩

end Sol

theorem list_set_getElem_self {α : Type u_1} (l : List α) (n : Nat)
    (h : n < l.length) : l.set n l[n] = l := by
  induction l generalizing n with
  | nil => simp at h
  | cons a t ih =>
    cases n with
    | zero => simp
    | succ m =>
      simp only [List.set_cons_succ, List.getElem_cons_succ, List.cons.injEq,
        true_and]
      exact ih m (by simpa using h)

namespace Sol

theorem sigOf_accountUses (instructions : List SolInstruction)
    (fee_payer : List Nat) (pk : List Nat) :
    sigOf (accountUses instructions fee_payer) pk = true ↔
      (pk = fee_payer ∨ ∃ ix ∈ instructions, ∃ m ∈ ix.accounts,
        m.pubkey = pk ∧ m.is_signer = true) := by
  simp only [sigOf, accountUses, List.any_cons, List.any_eq_true, Bool.or_eq_true,
    Bool.and_eq_true, decide_eq_true_eq, List.mem_flatMap, List.mem_append,
    List.mem_map, List.mem_singleton]
  constructor
  · rintro (⟨hpk, -⟩ | ⟨u, ⟨ix, hix, hcase⟩, hupk, hub⟩)
    · exact Or.inl hpk.symm
    · rcases hcase with ⟨m, hm, rfl⟩ | rfl
      · exact Or.inr ⟨ix, hix, m, hm, hupk, hub⟩
      · simp at hub
  · rintro (rfl | ⟨ix, hix, m, hm, hpk, hb⟩)
    · exact Or.inl ⟨rfl, trivial⟩
    · exact Or.inr ⟨(m.pubkey, m.is_signer, m.is_writable),
        ⟨ix, hix, Or.inl ⟨m, hm, rfl⟩⟩, hpk, hb⟩

theorem wrOf_accountUses (instructions : List SolInstruction)
    (fee_payer : List Nat) (pk : List Nat) :
    wrOf (accountUses instructions fee_payer) pk = true ↔
      (pk = fee_payer ∨ ∃ ix ∈ instructions, ∃ m ∈ ix.accounts,
        m.pubkey = pk ∧ m.is_writable = true) := by
  simp only [wrOf, accountUses, List.any_cons, List.any_eq_true, Bool.or_eq_true,
    Bool.and_eq_true, decide_eq_true_eq, List.mem_flatMap, List.mem_append,
    List.mem_map, List.mem_singleton]
  constructor
  · rintro (⟨hpk, -⟩ | ⟨u, ⟨ix, hix, hcase⟩, hupk, hub⟩)
    · exact Or.inl hpk.symm
    · rcases hcase with ⟨m, hm, rfl⟩ | rfl
      · exact Or.inr ⟨ix, hix, m, hm, hupk, hub⟩
      · simp at hub
  · rintro (rfl | ⟨ix, hix, m, hm, hpk, hb⟩)
    · exact Or.inl ⟨rfl, trivial⟩
    · exact Or.inr ⟨(m.pubkey, m.is_signer, m.is_writable),
        ⟨ix, hix, Or.inl ⟨m, hm, rfl⟩⟩, hpk, hb⟩

theorem mem_useKeys_accountUses (instructions : List SolInstruction)
    (fee_payer : List Nat) (pk : List Nat) :
    pk ∈ useKeys (accountUses instructions fee_payer) ↔
      (pk = fee_payer ∨ ∃ ix ∈ instructions,
        (ix.program_id = pk ∨ ∃ m ∈ ix.accounts, m.pubkey = pk)) := by
  simp only [useKeys, accountUses, List.map_cons, List.mem_cons, List.mem_map,
    List.mem_flatMap, List.mem_append, List.mem_singleton]
  constructor
  · rintro (rfl | ⟨u, ⟨ix, hix, hcase⟩, rfl⟩)
    · exact Or.inl rfl
    · rcases hcase with ⟨m, hm, rfl⟩ | (rfl | h0)
      · exact Or.inr ⟨ix, hix, Or.inr ⟨m, hm, rfl⟩⟩
      · exact Or.inr ⟨ix, hix, Or.inl rfl⟩
      · simp at h0
  · rintro (rfl | ⟨ix, hix, hpid | ⟨m, hm, hpk⟩⟩)
    · exact Or.inl rfl
    · exact Or.inr ⟨(ix.program_id, false, false), ⟨ix, hix, Or.inr (Or.inl rfl)⟩, hpid⟩
    · exact Or.inr ⟨(m.pubkey, m.is_signer, m.is_writable),
        ⟨ix, hix, Or.inl ⟨m, hm, rfl⟩⟩, hpk⟩

end Sol

namespace Sol

instance : IsTotal AccountEntry (fun a b => rank a ≤ rank b) :=
  ⟨fun a b => Nat.le_total (rank a) (rank b)⟩

instance : IsTrans AccountEntry (fun a b => rank a ≤ rank b) :=
  ⟨fun _ _ _ hab hbc => Nat.le_trans hab hbc⟩

theorem sortEntries_perm (es : List AccountEntry) : (sortEntries es).Perm es :=
  List.perm_insertionSort _ es

theorem sortEntries_sorted (es : List AccountEntry) :
    (sortEntries es).Pairwise (fun a b => rank a ≤ rank b) :=
  List.sorted_insertionSort _ es

theorem swapToFront_perm (es : List AccountEntry) (pos : Nat)
    (h : pos < es.length) : (swapToFront es pos).Perm es := by
  match es, pos with
  | [], p => simp at h
  | e0 :: rest, 0 => exact List.Perm.refl _
  | e0 :: rest, p + 1 =>
    have hp : p < rest.length := by simpa using h
    have hset : rest.set p e0 = rest.take p ++ e0 :: rest.drop (p + 1) := by
      rw [List.set_eq_take_append_cons_drop, if_pos hp]
    have hrest : rest = rest.take p ++ rest[p] :: rest.drop (p + 1) := by
      conv_lhs => rw [← List.take_append_drop p rest]
      rw [List.drop_eq_getElem_cons hp]
    have hgd : rest.getD p e0 = rest[p] := List.getD_eq_getElem rest e0 hp
    show (rest.getD p e0 :: rest.set p e0).Perm (e0 :: rest)
    rw [hgd, hset]
    conv_rhs => rw [hrest]
    have h1 : (rest[p] :: (rest.take p ++ e0 :: rest.drop (p + 1))).Perm
        (rest[p] :: e0 :: (rest.take p ++ rest.drop (p + 1))) :=
      List.Perm.cons _ List.perm_middle
    have h2 : (rest[p] :: e0 :: (rest.take p ++ rest.drop (p + 1))).Perm
        (e0 :: rest[p] :: (rest.take p ++ rest.drop (p + 1))) :=
      List.Perm.swap _ _ _
    have h3 : (e0 :: rest[p] :: (rest.take p ++ rest.drop (p + 1))).Perm
        (e0 :: (rest.take p ++ rest[p] :: rest.drop (p + 1))) :=
      List.Perm.cons _ List.perm_middle.symm
    exact (h1.trans h2).trans h3

theorem swapToFront_head (es : List AccountEntry) (pos : Nat)
    (h : pos < es.length) : (swapToFront es pos).head? = es[pos]? := by
  match es, pos with
  | [], p => simp at h
  | e0 :: rest, 0 => simp [swapToFront]
  | e0 :: rest, p + 1 =>
    have hp : p < rest.length := by simpa using h
    show some (rest.getD p e0) = (e0 :: rest)[p + 1]?
    rw [List.getD_eq_getElem rest e0 hp]
    simp [List.getElem?_eq_getElem, hp]

theorem swapToFront_map_rank (es : List AccountEntry) (pos : Nat)
    (h : pos < es.length)
    (hr : ∀ h0 : 0 < es.length, rank es[0] = rank es[pos]) :
    (swapToFront es pos).map rank = es.map rank := by
  match es, pos with
  | [], p => simp at h
  | e0 :: rest, 0 => rfl
  | e0 :: rest, p + 1 =>
    have hp : p < rest.length := by simpa using h
    have hr0 := hr (by simp)
    simp only [List.getElem_cons_zero, List.getElem_cons_succ] at hr0
    show rank (rest.getD p e0) :: (rest.set p e0).map rank = rank e0 :: rest.map rank
    rw [List.getD_eq_getElem rest e0 hp, List.map_set]
    rw [← hr0]
    have : (rest.map rank).set p (rank e0) = rest.map rank := by
      rw [hr0]
      have hp' : p < (rest.map rank).length := by simpa using hp
      have : rank rest[p] = (rest.map rank)[p] := by simp
      rw [this]
      exact list_set_getElem_self (rest.map rank) p hp'
    rw [this]

end Sol

namespace Sol

theorem fixFeePayer_perm (fee_payer : List Nat) (es : List AccountEntry) :
    (fixFeePayer fee_payer es).Perm es := by
  cases es with
  | nil => simp [fixFeePayer]
  | cons e0 rest =>
    by_cases h0 : e0.pubkey = fee_payer
    · simp [fixFeePayer, h0]
    · rcases hidx : (e0 :: rest).findIdx? (fun e => e.pubkey = fee_payer) with _ | pos
      · simp only [fixFeePayer, if_neg h0, hidx]
        exact List.Perm.refl _
      · have hlt : pos < (e0 :: rest).length := by
          rcases (List.findIdx?_eq_some_iff_findIdx_eq).mp hidx with ⟨hl, _⟩
          exact hl
        simp only [fixFeePayer, if_neg h0, hidx]
        exact swapToFront_perm (e0 :: rest) pos hlt

theorem fixFeePayer_head (fee_payer : List Nat) (es : List AccountEntry)
    (hmem : ∃ e ∈ es, e.pubkey = fee_payer) :
    (fixFeePayer fee_payer es).head?.map (fun e => e.pubkey) = some fee_payer := by
  cases es with
  | nil => simp at hmem
  | cons e0 rest =>
    by_cases h0 : e0.pubkey = fee_payer
    · simp [fixFeePayer, h0]
    · have hex : ∃ e ∈ e0 :: rest, (fun e : AccountEntry => decide (e.pubkey = fee_payer)) e = true := by
        obtain ⟨e, hm, hpk⟩ := hmem
        exact ⟨e, hm, decide_eq_true hpk⟩
      have hidx := List.findIdx?_eq_some_of_exists hex
      have hprop := (List.findIdx?_eq_some_iff_getElem).mp hidx
      rcases hprop with ⟨hlt, hsat, _⟩
      simp only [fixFeePayer, if_neg h0, hidx]
      rw [swapToFront_head _ _ hlt]
      rw [List.getElem?_eq_getElem hlt]
      simp only [decide_eq_true_eq] at hsat
      simp [hsat]

theorem fixFeePayer_map_rank (fee_payer : List Nat) (es : List AccountEntry)
    (hsorted : es.Pairwise (fun a b => rank a ≤ rank b))
    (hrank : ∀ e ∈ es, e.pubkey = fee_payer → rank e = 0)
    (hmem : ∃ e ∈ es, e.pubkey = fee_payer) :
    (fixFeePayer fee_payer es).map rank = es.map rank := by
  cases es with
  | nil => simp at hmem
  | cons e0 rest =>
    by_cases h0 : e0.pubkey = fee_payer
    · simp [fixFeePayer, h0]
    · have hex : ∃ e ∈ e0 :: rest, (fun e : AccountEntry => decide (e.pubkey = fee_payer)) e = true := by
        obtain ⟨e, hm, hpk⟩ := hmem
        exact ⟨e, hm, decide_eq_true hpk⟩
      have hidx := List.findIdx?_eq_some_of_exists hex
      have hprop := (List.findIdx?_eq_some_iff_getElem).mp hidx
      rcases hprop with ⟨hlt, hsat, _⟩
      simp only [decide_eq_true_eq] at hsat
      simp only [fixFeePayer, if_neg h0, hidx]
      apply swapToFront_map_rank _ _ hlt
      intro h0len
      have hpos_rank : rank (e0 :: rest)[List.findIdx
          (fun e => decide (e.pubkey = fee_payer)) (e0 :: rest)] = 0 :=
        hrank _ (List.getElem_mem hlt) hsat
      obtain ⟨e, hm, hpk⟩ := hmem
      have herank : rank e = 0 := hrank e hm hpk
      have hhead : rank e0 = 0 := by
        rcases List.mem_cons.mp hm with rfl | hm'
        · exact herank
        · have := (List.pairwise_cons.mp hsorted).1 e hm'
          omega
      simpa [hhead] using hpos_rank.symm

theorem compileEntries_perm (instructions : List SolInstruction)
    (fee_payer : List Nat) :
    (compileEntries instructions fee_payer).Perm
      (collectEntries instructions fee_payer) := by
  unfold compileEntries
  exact (fixFeePayer_perm _ _).trans (sortEntries_perm _)

theorem compileEntries_nodup (instructions : List SolInstruction)
    (fee_payer : List Nat) :
    ((compileEntries instructions fee_payer).map (fun e => e.pubkey)).Nodup := by
  have hperm := (compileEntries_perm instructions fee_payer).map (fun e => e.pubkey)
  exact (List.Perm.nodup_iff hperm).mpr (collectEntries_nodup instructions fee_payer)

theorem compileEntries_bits (instructions : List SolInstruction)
    (fee_payer : List Nat) (e : AccountEntry)
    (h : e ∈ compileEntries instructions fee_payer) :
    e.is_signer = sigOf (accountUses instructions fee_payer) e.pubkey ∧
    e.is_writable = wrOf (accountUses instructions fee_payer) e.pubkey :=
  collectEntries_bits instructions fee_payer e
    ((compileEntries_perm instructions fee_payer).mem_iff.mp h)

theorem compileEntries_mem_keys (instructions : List SolInstruction)
    (fee_payer : List Nat) (pk : List Nat) :
    pk ∈ (compileEntries instructions fee_payer).map (fun e => e.pubkey) ↔
      pk ∈ useKeys (accountUses instructions fee_payer) := by
  have hperm := (compileEntries_perm instructions fee_payer).map (fun e => e.pubkey)
  rw [hperm.mem_iff]
  exact collectEntries_mem_keys instructions fee_payer pk

theorem payer_entry_rank_zero (instructions : List SolInstruction)
    (fee_payer : List Nat) (e : AccountEntry)
    (hm : e ∈ sortEntries (collectEntries instructions fee_payer))
    (hpk : e.pubkey = fee_payer) : rank e = 0 := by
  have hm' : e ∈ collectEntries instructions fee_payer :=
    (sortEntries_perm _).mem_iff.mp hm
  have hbits := collectEntries_bits instructions fee_payer e hm'
  have hsig : e.is_signer = true := by
    rw [hbits.1, hpk]
    exact (sigOf_accountUses instructions fee_payer fee_payer).mpr (Or.inl rfl)
  have hwr : e.is_writable = true := by
    rw [hbits.2, hpk]
    exact (wrOf_accountUses instructions fee_payer fee_payer).mpr (Or.inl rfl)
  simp [rank, hsig, hwr]

theorem payer_mem_sorted (instructions : List SolInstruction)
    (fee_payer : List Nat) :
    ∃ e ∈ sortEntries (collectEntries instructions fee_payer),
      e.pubkey = fee_payer := by
  have hk : fee_payer ∈ (collectEntries instructions fee_payer).map
      (fun e => e.pubkey) := by
    rw [collectEntries_mem_keys]
    exact (mem_useKeys_accountUses instructions fee_payer fee_payer).mpr (Or.inl rfl)
  obtain ⟨e, hm, hpk⟩ := List.mem_map.mp hk
  exact ⟨e, (sortEntries_perm _).mem_iff.mpr hm, hpk⟩

theorem compileEntries_sorted (instructions : List SolInstruction)
    (fee_payer : List Nat) :
    (compileEntries instructions fee_payer).Pairwise
      (fun a b => rank a ≤ rank b) := by
  have hs := sortEntries_sorted (collectEntries instructions fee_payer)
  have hmaps : (fixFeePayer fee_payer (sortEntries (collectEntries instructions
      fee_payer))).map rank = (sortEntries (collectEntries instructions
      fee_payer)).map rank := by
    apply fixFeePayer_map_rank _ _ hs
    · exact fun e hm hpk => payer_entry_rank_zero instructions fee_payer e hm hpk
    · exact payer_mem_sorted instructions fee_payer
  have hs' : ((sortEntries (collectEntries instructions fee_payer)).map rank).Pairwise
      (fun a b => a ≤ b) := List.pairwise_map.mpr hs
  have : ((compileEntries instructions fee_payer).map rank).Pairwise
      (fun a b => a ≤ b) := by
    unfold compileEntries
    rw [hmaps]
    exact hs'
  exact List.pairwise_map.mp this

theorem compileEntries_head (instructions : List SolInstruction)
    (fee_payer : List Nat) :
    (compileEntries instructions fee_payer).head?.map (fun e => e.pubkey)
      = some fee_payer := by
  unfold compileEntries
  exact fixFeePayer_head fee_payer _ (payer_mem_sorted instructions fee_payer)

end Sol

namespace Sol

theorem compile_transaction_ok_keys (instructions : List SolInstruction)
    (fee_payer recent_blockhash : List Nat) (tx : SolTransaction)
    (h : compile_transaction instructions fee_payer recent_blockhash
      = Except.ok tx) :
    tx.account_keys =
      (compileEntries instructions fee_payer).map (fun e => e.pubkey) := by
  unfold compile_transaction at h
  dsimp only at h
  rcases hc : compileIxLoop ((compileEntries instructions fee_payer).map
      (fun e => e.pubkey)) instructions with e | compiled <;> rw [hc] at h
  · cases h
  · simp only [Except.ok.injEq] at h
    rw [← h]

/-- C8: `compile_transaction` produces an account-key list that is the entry
list ordered by rank — (signer,writable), then (signer,readonly), then
(writable,non-signer), then (readonly,non-signer) — with permission bits OR'd
across every occurrence of the same key (the fee payer forced signer and
writable), each key appearing exactly once, and the fee payer at index 0. -/
theorem compile_transaction_account_keys_canonical
    (instructions : List SolInstruction) (fee_payer recent_blockhash : List Nat)
    (tx : SolTransaction)
    (h : compile_transaction instructions fee_payer recent_blockhash
      = Except.ok tx) :
    tx.account_keys =
      (compileEntries instructions fee_payer).map (fun e => e.pubkey) ∧
    (compileEntries instructions fee_payer).Pairwise
      (fun a b => rank a ≤ rank b) ∧
    tx.account_keys.Nodup ∧
    (∀ e ∈ compileEntries instructions fee_payer,
      (e.is_signer = true ↔ (e.pubkey = fee_payer ∨ ∃ ix ∈ instructions,
        ∃ m ∈ ix.accounts, m.pubkey = e.pubkey ∧ m.is_signer = true)) ∧
      (e.is_writable = true ↔ (e.pubkey = fee_payer ∨ ∃ ix ∈ instructions,
        ∃ m ∈ ix.accounts, m.pubkey = e.pubkey ∧ m.is_writable = true))) ∧
    (∀ pk, pk ∈ tx.account_keys ↔ (pk = fee_payer ∨ ∃ ix ∈ instructions,
      (ix.program_id = pk ∨ ∃ m ∈ ix.accounts, m.pubkey = pk))) ∧
    tx.account_keys.head? = some fee_payer := by
  have hkeys := compile_transaction_ok_keys instructions fee_payer
    recent_blockhash tx h
  refine ⟨hkeys, compileEntries_sorted instructions fee_payer, ?_, ?_, ?_, ?_⟩
  · rw [hkeys]
    exact compileEntries_nodup instructions fee_payer
  · intro e hm
    have hbits := compileEntries_bits instructions fee_payer e hm
    constructor
    · rw [hbits.1]
      exact sigOf_accountUses instructions fee_payer e.pubkey
    · rw [hbits.2]
      exact wrOf_accountUses instructions fee_payer e.pubkey
  · intro pk
    rw [hkeys, compileEntries_mem_keys]
    exact mem_useKeys_accountUses instructions fee_payer pk
  · rw [hkeys, List.head?_map]
    exact compileEntries_head instructions fee_payer

/-- Witness for C8 at a concrete native-transfer compilation. -/
theorem compile_transaction_account_keys_canonical_witness :
    ([[1], [2], List.replicate 32 0] : List (List Nat)) =
      (compileEntries [build_system_transfer_instruction [1] [2] 5] [1]).map
        (fun e => e.pubkey) ∧
    (compileEntries [build_system_transfer_instruction [1] [2] 5] [1]).Pairwise
      (fun a b => rank a ≤ rank b) ∧
    ([[1], [2], List.replicate 32 0] : List (List Nat)).Nodup ∧
    (∀ e ∈ compileEntries [build_system_transfer_instruction [1] [2] 5] [1],
      (e.is_signer = true ↔ (e.pubkey = [1] ∨
        ∃ ix ∈ [build_system_transfer_instruction [1] [2] 5],
        ∃ m ∈ ix.accounts, m.pubkey = e.pubkey ∧ m.is_signer = true)) ∧
      (e.is_writable = true ↔ (e.pubkey = [1] ∨
        ∃ ix ∈ [build_system_transfer_instruction [1] [2] 5],
        ∃ m ∈ ix.accounts, m.pubkey = e.pubkey ∧ m.is_writable = true))) ∧
    (∀ pk, pk ∈ ([[1], [2], List.replicate 32 0] : List (List Nat)) ↔
      (pk = [1] ∨ ∃ ix ∈ [build_system_transfer_instruction [1] [2] 5],
        (ix.program_id = pk ∨ ∃ m ∈ ix.accounts, m.pubkey = pk))) ∧
    ([[1], [2], List.replicate 32 0] : List (List Nat)).head? = some [1] :=
  compile_transaction_account_keys_canonical
    [build_system_transfer_instruction [1] [2] 5] [1] [7] _ rfl

end Sol

namespace Sol

theorem accountIndexLoop_ok_of_mem (account_keys : List (List Nat)) :
    ∀ metas : List SolAccountMeta,
    (∀ m ∈ metas, m.pubkey ∈ account_keys) →
    ∃ idxs, accountIndexLoop account_keys metas = Except.ok idxs := by
  intro metas
  induction metas with
  | nil => exact fun _ => ⟨[], rfl⟩
  | cons m rest ih =>
    intro hmem
    have hex : ∃ k ∈ account_keys,
        (fun k : List Nat => decide (k = m.pubkey)) k = true :=
      ⟨m.pubkey, hmem m (List.mem_cons_self m rest), decide_eq_true rfl⟩
    have hidx := List.findIdx?_eq_some_of_exists hex
    obtain ⟨idxs, hrest⟩ := ih (fun x hx => hmem x (List.mem_cons_of_mem m hx))
    refine ⟨List.findIdx (fun k => decide (k = m.pubkey)) account_keys % 256
      :: idxs, ?_⟩
    simp only [accountIndexLoop, hidx, hrest]

theorem compileIxLoop_ok_of_mem (account_keys : List (List Nat)) :
    ∀ instructions : List SolInstruction,
    (∀ ix ∈ instructions, ix.program_id ∈ account_keys ∧
      ∀ m ∈ ix.accounts, m.pubkey ∈ account_keys) →
    ∃ compiled, compileIxLoop account_keys instructions = Except.ok compiled := by
  intro instructions
  induction instructions with
  | nil => exact fun _ => ⟨[], rfl⟩
  | cons ix rest ih =>
    intro hmem
    have hpid := (hmem ix (List.mem_cons_self ix rest)).1
    have hex : ∃ k ∈ account_keys,
        (fun k : List Nat => decide (k = ix.program_id)) k = true :=
      ⟨ix.program_id, hpid, decide_eq_true rfl⟩
    have hidx := List.findIdx?_eq_some_of_exists hex
    obtain ⟨idxs, hacc⟩ := accountIndexLoop_ok_of_mem account_keys ix.accounts
      (hmem ix (List.mem_cons_self ix rest)).2
    obtain ⟨compiled, hrest⟩ := ih (fun x hx => hmem x (List.mem_cons_of_mem ix hx))
    refine ⟨({ program_id_index :=
                 List.findIdx (fun k => decide (k = ix.program_id)) account_keys % 256,
               account_indices := idxs,
               data := ix.data } : CompiledInstruction) :: compiled, ?_⟩
    simp only [compileIxLoop, hidx, hacc, hrest]

/-- C10: `build_sol_transfer` with zero lamports fails with a
`TransactionBuildError` and builds nothing, while any positive lamports
amount succeeds; `build_spl_transfer` likewise rejects amount 0. -/
theorem build_sol_transfer_rejects_zero_accepts_positive
    (from_pubkey to_pubkey recent_blockhash : List Nat) (lamports : Nat) :
    (lamports = 0 →
      build_sol_transfer from_pubkey to_pubkey lamports recent_blockhash =
        Except.error (SolError.TransactionBuildError "lamports must be > 0")) ∧
    (0 < lamports →
      ∃ tx, build_sol_transfer from_pubkey to_pubkey lamports recent_blockhash =
        Except.ok tx) ∧
    (∀ from_token_account to_token_account owner decimals,
      build_spl_transfer from_token_account to_token_account owner 0 decimals =
        Except.error (SolError.TransactionBuildError
          "SPL transfer amount must be > 0")) := by
  refine ⟨?_, ?_, ?_⟩
  · intro h0
    simp [build_sol_transfer, h0]
  · intro hpos
    unfold build_sol_transfer
    rw [if_neg (by omega)]
    set ix := build_system_transfer_instruction from_pubkey to_pubkey lamports
      with hix
    have hmem : ∀ jx ∈ [ix], jx.program_id ∈
        ((compileEntries [ix] from_pubkey).map (fun e => e.pubkey)) ∧
        ∀ m ∈ jx.accounts, m.pubkey ∈
          ((compileEntries [ix] from_pubkey).map (fun e => e.pubkey)) := by
      intro jx hjx
      have heq : jx = ix := List.mem_singleton.mp hjx
      subst heq
      constructor
      · rw [compileEntries_mem_keys]
        exact (mem_useKeys_accountUses [ix] from_pubkey ix.program_id).mpr
          (Or.inr ⟨ix, List.mem_singleton_self ix, Or.inl rfl⟩)
      · intro m hm
        rw [compileEntries_mem_keys]
        exact (mem_useKeys_accountUses [ix] from_pubkey m.pubkey).mpr
          (Or.inr ⟨ix, List.mem_singleton_self ix, Or.inr ⟨m, hm, rfl⟩⟩)
    obtain ⟨compiled, hcomp⟩ := compileIxLoop_ok_of_mem
      ((compileEntries [ix] from_pubkey).map (fun e => e.pubkey)) [ix] hmem
    unfold compile_transaction
    dsimp only
    rw [hcomp]
    exact ⟨_, rfl⟩
  · intro f t o d
    simp [build_spl_transfer]

/-- Witness for C10 at concrete inputs (lamports 0 and 5). -/
theorem build_sol_transfer_rejects_zero_accepts_positive_witness :
    build_sol_transfer [1] [2] 0 [7] =
      Except.error (SolError.TransactionBuildError "lamports must be > 0") ∧
    (∃ tx, build_sol_transfer [1] [2] 5 [7] = Except.ok tx) ∧
    build_spl_transfer [1] [2] [3] 0 6 =
      Except.error (SolError.TransactionBuildError
        "SPL transfer amount must be > 0") :=
  ⟨(build_sol_transfer_rejects_zero_accepts_positive [1] [2] [7] 0).1 rfl,
   (build_sol_transfer_rejects_zero_accepts_positive [1] [2] [7] 5).2.1
     (by decide),
   (build_sol_transfer_rejects_zero_accepts_positive [1] [2] [7] 5).2.2
     [1] [2] [3] 6⟩

end Sol

namespace Sol

/-- C4: on a well-formed raw Solana transaction, `sign_sol_raw_transaction`
returns the input bytes with exactly the 64-byte signature slot of the signer
whose account key equals the derived public key overwritten (every byte
outside the slot unchanged, the slot holding the fresh signature), and fails
with a `SigningError` when the public key is absent from the first
`numRequiredSignatures` account keys. -/
theorem sign_sol_raw_transaction_splices_only_signature_slot
    (pubkeyOf : List Nat → List Nat) (signFn : List Nat → List Nat → List Nat)
    (private_key raw_tx : List Nat)
    (num_sigs compact_len num_accounts accounts_compact_len : Nat)
    (hdec : decode_compact_u16 raw_tx = Except.ok (num_sigs, compact_len))
    (hns : num_sigs ≠ 0)
    (hfit : compact_len + num_sigs * 64 ≤ raw_tx.length)
    (hmsg : 4 ≤ (raw_tx.drop (compact_len + num_sigs * 64)).length)
    (hdec2 : decode_compact_u16
        ((raw_tx.drop (compact_len + num_sigs * 64)).drop 3)
      = Except.ok (num_accounts, accounts_compact_len))
    (hacc : 3 + accounts_compact_len + num_accounts * 32
      ≤ (raw_tx.drop (compact_len + num_sigs * 64)).length)
    (hreq : (raw_tx.drop (compact_len + num_sigs * 64)).getD 0 0 ≤ num_sigs)
    (hsiglen : (signFn private_key
      (raw_tx.drop (compact_len + num_sigs * 64))).length = 64) :
    (((List.range (min ((raw_tx.drop (compact_len + num_sigs * 64)).getD 0 0)
          num_accounts)).find? (fun i =>
            ((raw_tx.drop (compact_len + num_sigs * 64)).drop
              (3 + accounts_compact_len + i * 32)).take 32
            = pubkeyOf private_key) = none →
      sign_sol_raw_transaction pubkeyOf signFn private_key raw_tx =
        Except.error (SolError.SigningError
          "wallet pubkey not found in transaction signers")) ∧
    (∀ signer_idx,
      (List.range (min ((raw_tx.drop (compact_len + num_sigs * 64)).getD 0 0)
          num_accounts)).find? (fun i =>
            ((raw_tx.drop (compact_len + num_sigs * 64)).drop
              (3 + accounts_compact_len + i * 32)).take 32
            = pubkeyOf private_key) = some signer_idx →
      sign_sol_raw_transaction pubkeyOf signFn private_key raw_tx =
        Except.ok (raw_tx.take (compact_len + signer_idx * 64)
          ++ signFn private_key (raw_tx.drop (compact_len + num_sigs * 64))
          ++ raw_tx.drop (compact_len + signer_idx * 64 + 64)) ∧
      (raw_tx.take (compact_len + signer_idx * 64)
          ++ signFn private_key (raw_tx.drop (compact_len + num_sigs * 64))
          ++ raw_tx.drop (compact_len + signer_idx * 64 + 64)).length
        = raw_tx.length ∧
      (∀ j, j < compact_len + signer_idx * 64 ∨
          compact_len + signer_idx * 64 + 64 ≤ j →
        (raw_tx.take (compact_len + signer_idx * 64)
          ++ signFn private_key (raw_tx.drop (compact_len + num_sigs * 64))
          ++ raw_tx.drop (compact_len + signer_idx * 64 + 64))[j]?
        = raw_tx[j]?) ∧
      ((raw_tx.take (compact_len + signer_idx * 64)
          ++ signFn private_key (raw_tx.drop (compact_len + num_sigs * 64))
          ++ raw_tx.drop (compact_len + signer_idx * 64 + 64)).drop
            (compact_len + signer_idx * 64)).take 64
        = signFn private_key (raw_tx.drop (compact_len + num_sigs * 64)))) := by
  have hrun : ∀ r, (List.range (min ((raw_tx.drop (compact_len + num_sigs * 64)).getD 0 0)
        num_accounts)).find? (fun i =>
          ((raw_tx.drop (compact_len + num_sigs * 64)).drop
            (3 + accounts_compact_len + i * 32)).take 32
          = pubkeyOf private_key) = r →
      sign_sol_raw_transaction pubkeyOf signFn private_key raw_tx =
        (match r with
         | none => Except.error (SolError.SigningError
             "wallet pubkey not found in transaction signers")
         | some signer_idx =>
           Except.ok (raw_tx.take (compact_len + signer_idx * 64)
             ++ signFn private_key (raw_tx.drop (compact_len + num_sigs * 64))
             ++ raw_tx.drop (compact_len + signer_idx * 64 + 64))) := by
    intro r hr
    unfold sign_sol_raw_transaction
    rw [hdec]
    dsimp only
    rw [if_neg hns, if_neg (by omega)]
    rw [if_neg (by omega)]
    rw [hdec2]
    dsimp only
    rw [if_neg (by omega)]
    rw [hr]
  constructor
  · intro hnone
    rw [hrun none hnone]
  · intro signer_idx hsome
    have hidx_lt : signer_idx <
        min ((raw_tx.drop (compact_len + num_sigs * 64)).getD 0 0) num_accounts := by
      have := List.find?_some hsome
      have hmem := List.mem_of_find?_eq_some hsome
      exact List.mem_range.mp hmem
    have hoff : compact_len + signer_idx * 64 + 64 ≤ raw_tx.length := by
      have h1 : signer_idx < num_sigs := by omega
      nlinarith [h1, hfit]
    have hA : (raw_tx.take (compact_len + signer_idx * 64)).length
        = compact_len + signer_idx * 64 := by
      simp
      omega
    refine ⟨hrun (some signer_idx) hsome, ?_, ?_, ?_⟩
    · simp only [List.length_append, List.length_take, List.length_drop, hsiglen]
      omega
    · intro j hj
      rcases hj with hj | hj
      · rw [List.append_assoc]
        simp only [List.getElem?_append, hA]
        rw [if_pos (by omega)]
        rw [List.getElem?_take]
        simp [hj]
      · rw [List.append_assoc]
        simp only [List.getElem?_append, hA, hsiglen, List.length_append]
        rw [if_neg (by omega), if_neg (by omega)]
        rw [List.getElem?_drop]
        congr 1
        omega
    · rw [List.append_assoc, List.drop_append_eq_append_drop, hA, Nat.sub_self,
        List.drop_zero, List.drop_eq_nil_of_le (le_of_eq hA), List.nil_append,
        List.take_append_eq_append_take, hsiglen, Nat.sub_self, List.take_zero,
        List.append_nil]
      exact List.take_of_length_le (by omega)

/-- Witness for C4 on a concrete 134-byte raw transaction with one required
signature whose account key matches the derived public key: the output is
the input with bytes 1..64 replaced by the fresh signature. -/
theorem sign_sol_raw_transaction_splices_only_signature_slot_witness :
    sign_sol_raw_transaction (fun _ => List.replicate 32 5)
      (fun _ _ => List.replicate 64 9) [3]
      (1 :: (List.replicate 64 0 ++ ([1, 0, 0] ++ [1] ++ List.replicate 32 5
        ++ List.replicate 32 7 ++ [0]))) =
    Except.ok ((1 :: (List.replicate 64 0 ++ ([1, 0, 0] ++ [1]
        ++ List.replicate 32 5 ++ List.replicate 32 7 ++ [0]))).take 1
      ++ List.replicate 64 9
      ++ (1 :: (List.replicate 64 0 ++ ([1, 0, 0] ++ [1]
        ++ List.replicate 32 5 ++ List.replicate 32 7 ++ [0]))).drop 65) :=
  ((sign_sol_raw_transaction_splices_only_signature_slot
    (fun _ => List.replicate 32 5) (fun _ _ => List.replicate 64 9) [3]
    (1 :: (List.replicate 64 0 ++ ([1, 0, 0] ++ [1] ++ List.replicate 32 5
      ++ List.replicate 32 7 ++ [0])))
    1 1 1 1
    (by
      rw [decode_compact_u16]
      rw [decodeCompactLoop]
      norm_num)
    (by decide)
    (by decide)
    (by decide)
    (by
      rw [decode_compact_u16]
      rw [decodeCompactLoop]
      norm_num)
    (by decide)
    (by decide)
    (by decide)).2 0 (by decide)).1

end Sol

namespace Sol

/-- `try_create_program_address` at a single-byte bump seed, phrased through
`pdaHashAt`. -/
theorem try_create_program_address_eq (sha256 : List Nat → List Nat)
    (is_on_curve : List Nat → Bool) (seeds : List (List Nat))
    (program_id : List Nat) (bump : Nat) :
    try_create_program_address sha256 is_on_curve seeds [bump] program_id =
      if is_on_curve (pdaHashAt sha256 seeds program_id bump) then none
      else some (pdaHashAt sha256 seeds program_id bump) := rfl

/-- A successful bump search returns the hash of the largest bump at most `b`
whose hash is off-curve, every larger bump up to `b` hashing on-curve. -/
theorem findBumpLoop_ok_spec (sha256 : List Nat → List Nat)
    (is_on_curve : List Nat → Bool) (seeds : List (List Nat))
    (program_id : List Nat) :
    ∀ b addr bump,
      findBumpLoop sha256 is_on_curve seeds program_id b
        = Except.ok (addr, bump) →
      bump ≤ b ∧ addr = pdaHashAt sha256 seeds program_id bump ∧
      is_on_curve (pdaHashAt sha256 seeds program_id bump) = false ∧
      ∀ j, bump < j → j ≤ b →
        is_on_curve (pdaHashAt sha256 seeds program_id j) = true := by
  intro b
  induction b with
  | zero =>
    intro addr bump h
    simp only [findBumpLoop, try_create_program_address_eq] at h
    cases hc : is_on_curve (pdaHashAt sha256 seeds program_id 0) with
    | true =>
      rw [hc] at h
      simp at h
    | false =>
      rw [hc] at h
      simp at h
      obtain ⟨h1, h2⟩ := h
      subst h2
      exact ⟨Nat.le_refl 0, h1.symm, hc, fun j hj1 hj2 => absurd hj1 (by omega)⟩
  | succ b ih =>
    intro addr bump h
    simp only [findBumpLoop, try_create_program_address_eq] at h
    cases hc : is_on_curve (pdaHashAt sha256 seeds program_id (b + 1)) with
    | false =>
      rw [hc] at h
      simp at h
      obtain ⟨h1, h2⟩ := h
      subst h2
      exact ⟨Nat.le_refl _, h1.symm, hc, fun j hj1 hj2 => absurd hj1 (by omega)⟩
    | true =>
      rw [hc] at h
      simp at h
      obtain ⟨hb, ha, hcurve, hall⟩ := ih addr bump h
      refine ⟨by omega, ha, hcurve, ?_⟩
      intro j hj1 hj2
      rcases Nat.lt_or_ge j (b + 1) with hlt | hge
      · exact hall j hj1 (by omega)
      · have hj : j = b + 1 := by omega
        rw [hj]
        exact hc

/-- The bump search fails (with the fixed `InvalidAddress` message) exactly
when every bump at most `b` hashes to an on-curve point. -/
theorem findBumpLoop_error_iff (sha256 : List Nat → List Nat)
    (is_on_curve : List Nat → Bool) (seeds : List (List Nat))
    (program_id : List Nat) :
    ∀ b,
      findBumpLoop sha256 is_on_curve seeds program_id b
          = Except.error (SolError.InvalidAddress
              "could not find valid PDA bump seed") ↔
        ∀ j, j ≤ b → is_on_curve (pdaHashAt sha256 seeds program_id j) = true := by
  intro b
  induction b with
  | zero =>
    cases hc : is_on_curve (pdaHashAt sha256 seeds program_id 0) with
    | true =>
      constructor
      · intro _ j hj
        have hj0 : j = 0 := Nat.le_zero.mp hj
        rw [hj0]
        exact hc
      · intro _
        simp [findBumpLoop, try_create_program_address_eq, hc]
    | false =>
      constructor
      · intro h
        exfalso
        simp [findBumpLoop, try_create_program_address_eq, hc] at h
      · intro hall
        have h0 := hall 0 (Nat.le_refl 0)
        rw [hc] at h0
        exact absurd h0 (by simp)
  | succ b ih =>
    cases hc : is_on_curve (pdaHashAt sha256 seeds program_id (b + 1)) with
    | true =>
      constructor
      · intro h j hj
        rcases Nat.lt_or_ge j (b + 1) with hlt | hge
        · have hrec : findBumpLoop sha256 is_on_curve seeds program_id b
              = Except.error (SolError.InvalidAddress
                  "could not find valid PDA bump seed") := by
            simp only [findBumpLoop, try_create_program_address_eq, hc] at h
            simpa using h
          exact (ih.mp hrec) j (by omega)
        · have hj1 : j = b + 1 := by omega
          rw [hj1]
          exact hc
      · intro hall
        have hrec := ih.mpr (fun j hj => hall j (by omega))
        simp only [findBumpLoop, try_create_program_address_eq, hc]
        simpa using hrec
    | false =>
      constructor
      · intro h
        exfalso
        simp [findBumpLoop, try_create_program_address_eq, hc] at h
      · intro hall
        have h1 := hall (b + 1) (Nat.le_refl _)
        rw [hc] at h1
        exact absurd h1 (by simp)

/-- C5: every address returned by `derive_associated_token_address` is the
hash of seeds ‖ bump ‖ program id ‖ "ProgramDerivedAddress" for the largest
bump in 255 down to 0 whose hash is off-curve (so in particular the returned
address is never an on-curve point, and determinism holds since the function
is pure), and the derivation fails — with the fixed `InvalidAddress` error —
exactly when every bump hashes to an on-curve point. -/
theorem derive_associated_token_address_pda_spec
    (sha256 : List Nat → List Nat) (is_on_curve : List Nat → Bool)
    (wallet mint : List Nat) :
    (∀ addr,
      derive_associated_token_address sha256 is_on_curve wallet mint
        = Except.ok addr →
      ∃ bump, bump ≤ 255 ∧
        addr = pdaHashAt sha256 [wallet, TOKEN_PROGRAM_ID, mint]
          ASSOCIATED_TOKEN_PROGRAM_ID bump ∧
        is_on_curve addr = false ∧
        ∀ j, bump < j → j ≤ 255 →
          is_on_curve (pdaHashAt sha256 [wallet, TOKEN_PROGRAM_ID, mint]
            ASSOCIATED_TOKEN_PROGRAM_ID j) = true) ∧
    (derive_associated_token_address sha256 is_on_curve wallet mint
        = Except.error (SolError.InvalidAddress
            "could not find valid PDA bump seed") ↔
      ∀ j, j ≤ 255 →
        is_on_curve (pdaHashAt sha256 [wallet, TOKEN_PROGRAM_ID, mint]
          ASSOCIATED_TOKEN_PROGRAM_ID j) = true) := by
  constructor
  · intro addr h
    unfold derive_associated_token_address find_program_address at h
    rcases hf : findBumpLoop sha256 is_on_curve [wallet, TOKEN_PROGRAM_ID, mint]
        ASSOCIATED_TOKEN_PROGRAM_ID 255 with e | p
    · rw [hf] at h
      exact absurd h (by simp [Except.map])
    · rw [hf] at h
      simp [Except.map] at h
      obtain ⟨hb, ha, hcurve, hall⟩ := findBumpLoop_ok_spec sha256 is_on_curve
        [wallet, TOKEN_PROGRAM_ID, mint] ASSOCIATED_TOKEN_PROGRAM_ID
        255 p.1 p.2 (by rw [hf])
      refine ⟨p.2, hb, ?_, ?_, hall⟩
      · rw [← h]
        exact ha
      · rw [← h, ha]
        exact hcurve
  · constructor
    · intro h
      apply (findBumpLoop_error_iff sha256 is_on_curve
        [wallet, TOKEN_PROGRAM_ID, mint] ASSOCIATED_TOKEN_PROGRAM_ID 255).mp
      unfold derive_associated_token_address find_program_address at h
      rcases hf : findBumpLoop sha256 is_on_curve [wallet, TOKEN_PROGRAM_ID, mint]
          ASSOCIATED_TOKEN_PROGRAM_ID 255 with e | p
      · rw [hf] at h
        simp [Except.map] at h
        rw [h]
      · rw [hf] at h
        exact absurd h (by simp [Except.map])
    · intro hall
      have herr := (findBumpLoop_error_iff sha256 is_on_curve
        [wallet, TOKEN_PROGRAM_ID, mint] ASSOCIATED_TOKEN_PROGRAM_ID 255).mpr hall
      unfold derive_associated_token_address find_program_address
      rw [herr]
      rfl

/-- Witness for C5: with the identity in place of SHA-256 and an on-curve
test that accepts exactly the candidates whose bump byte is 255, the
derivation for wallet `[1]` and mint `[2]` lands on bump 254. -/
theorem derive_associated_token_address_pda_spec_witness :
    ∃ bump, bump ≤ 255 ∧
      pdaHashAt (fun l => l) [[1], TOKEN_PROGRAM_ID, [2]]
          ASSOCIATED_TOKEN_PROGRAM_ID 254
        = pdaHashAt (fun l => l) [[1], TOKEN_PROGRAM_ID, [2]]
            ASSOCIATED_TOKEN_PROGRAM_ID bump ∧
      (fun l : List Nat => decide (l.getD 34 0 = 255))
        (pdaHashAt (fun l => l) [[1], TOKEN_PROGRAM_ID, [2]]
          ASSOCIATED_TOKEN_PROGRAM_ID 254) = false ∧
      ∀ j, bump < j → j ≤ 255 →
        (fun l : List Nat => decide (l.getD 34 0 = 255))
          (pdaHashAt (fun l => l) [[1], TOKEN_PROGRAM_ID, [2]]
            ASSOCIATED_TOKEN_PROGRAM_ID j) = true :=
  (derive_associated_token_address_pda_spec (fun l => l)
      (fun l => decide (l.getD 34 0 = 255)) [1] [2]).1
    (pdaHashAt (fun l => l) [[1], TOKEN_PROGRAM_ID, [2]]
      ASSOCIATED_TOKEN_PROGRAM_ID 254)
    rfl

end Sol

theorem option_bind_some {α β : Type u_1} (a : α) (f : α → Option β) :
    ((some a : Option α) >>= f) = f a := rfl

namespace Eth

theorem beToNat_append (l : List Nat) (b : Nat) :
    beToNat (l ++ [b]) = beToNat l * 256 + b := by
  simp [beToNat, List.foldl_append]

theorem beToNat_minimalBE (n : Nat) : beToNat (minimalBE n) = n := by
  induction n using Nat.strong_induction_on with
  | _ n ih =>
    rw [minimalBE]
    by_cases h : n = 0
    · simp [h, beToNat]
    · rw [dif_neg h, beToNat_append,
        ih (n / 256) (Nat.div_lt_self (Nat.pos_of_ne_zero h) (by omega))]
      omega

theorem minimalBE_length_le (k : Nat) :
    ∀ n, n < 256 ^ k → (minimalBE n).length ≤ k := by
  induction k with
  | zero =>
    intro n hn
    have : n = 0 := by simpa using hn
    rw [this, minimalBE]
    simp
  | succ k ih =>
    intro n hn
    rw [minimalBE]
    by_cases h : n = 0
    · simp [h]
    · rw [dif_neg h]
      have hdiv : n / 256 < 256 ^ k := by
        rw [pow_succ] at hn
        exact Nat.div_lt_of_lt_mul (by linarith)
      have := ih (n / 256) hdiv
      simp [List.length_append]
      omega

theorem minimalBE_ne_nil (n : Nat) (h : n ≠ 0) : 1 ≤ (minimalBE n).length := by
  rw [minimalBE, dif_neg h]
  simp

theorem rlpDecodeNat?_rlpBytes (bs rest : List Nat) (h : bs.length ≤ 55) :
    rlpDecodeNat? (rlpBytes bs ++ rest) = some (beToNat bs, rest) := by
  match bs with
  | [] =>
    simp [rlpBytes, rlpDecodeNat?, beToNat]
  | [b] =>
    by_cases hb : b < 0x80
    · simp [rlpBytes, hb, rlpDecodeNat?, beToNat]
    · simp [rlpBytes, hb, rlpDecodeNat?, beToNat]
  | b1 :: b2 :: tl =>
    have hlen : (b1 :: b2 :: tl).length ≤ 55 := h
    simp only [rlpBytes]
    rw [if_pos hlen]
    rw [List.cons_append]
    simp only [rlpDecodeNat?]
    rw [if_neg (by omega), if_pos (by omega)]
    rw [if_neg (by simp only [List.length_append]; omega)]
    have hsub : 0x80 + (b1 :: b2 :: tl).length - 0x80
        = (b1 :: b2 :: tl).length := by
      omega
    rw [hsub]
    rw [List.take_left, List.drop_left]

theorem rlpDecodeNat?_rlpNat (n : Nat) (h : n < 2 ^ 128) (rest : List Nat) :
    rlpDecodeNat? (rlpNat n ++ rest) = some (n, rest) := by
  have hlen : (minimalBE n).length ≤ 16 :=
    minimalBE_length_le 16 n (by calc n < 2 ^ 128 := h
                                   _ = 256 ^ 16 := by norm_num)
  rw [rlpNat, rlpDecodeNat?_rlpBytes _ rest (le_trans hlen (by norm_num)),
    beToNat_minimalBE]

theorem rlpSkipListHeader?_rlpList (payload : List Nat) :
    rlpSkipListHeader? (rlpList payload) = some payload := by
  by_cases h : payload.length ≤ 55
  · simp only [rlpList]
    rw [if_pos h]
    simp only [rlpSkipListHeader?]
    rw [if_neg (by omega), if_pos (by omega)]
  · simp only [rlpList]
    rw [if_neg h]
    simp only [rlpSkipListHeader?]
    have h1 : 1 ≤ (minimalBE payload.length).length :=
      minimalBE_ne_nil _ (by omega)
    rw [if_neg (by omega), if_neg (by omega)]
    have hsub : 0xf7 + (minimalBE payload.length).length - 0xf7
        = (minimalBE payload.length).length := by omega
    rw [hsub, List.drop_left]

theorem decodeChainIdNonce?_payload (cid nonce : Nat) (hcid : cid < 2 ^ 128)
    (hn : nonce < 2 ^ 128) (tail : List Nat) :
    decodeChainIdNonce? (2 :: rlpList (rlpNat cid ++ (rlpNat nonce ++ tail)))
      = some (cid, nonce) := by
  simp only [decodeChainIdNonce?]
  rw [rlpSkipListHeader?_rlpList]
  rw [option_bind_some]
  rw [rlpDecodeNat?_rlpNat cid hcid]
  rw [option_bind_some]
  rw [rlpDecodeNat?_rlpNat nonce hn]
  rw [option_bind_some]

theorem encode_unsigned_tx_ok_shape (tx : EthTransaction) (out : List Nat)
    (henc : encode_unsigned_tx tx = Except.ok out) :
    ∃ to_bytes, parse_to_bytes tx.«to» = Except.ok to_bytes ∧
      out = 2 :: rlpList (rlpNat tx.chain_id ++ rlpNat tx.nonce
        ++ rlpNat tx.max_priority_fee_per_gas ++ rlpNat tx.max_fee_per_gas
        ++ rlpNat tx.gas_limit ++ rlpBytes to_bytes ++ rlpNat tx.value
        ++ rlpVecU8 tx.data ++ rlpList []) := by
  unfold encode_unsigned_tx at henc
  rcases hp : parse_to_bytes tx.«to» with e | to_bytes
  · rw [hp] at henc
    exact absurd henc (by simp)
  · rw [hp] at henc
    dsimp only at henc
    refine ⟨to_bytes, rfl, ?_⟩
    exact (by injection henc with h; exact h.symm)

theorem decodeChainIdNonce?_encode (tx : EthTransaction) (h : ValidEthTx tx)
    (out : List Nat) (henc : encode_unsigned_tx tx = Except.ok out) :
    decodeChainIdNonce? out = some (tx.chain_id, tx.nonce) := by
  obtain ⟨to_bytes, _, hout⟩ := encode_unsigned_tx_ok_shape tx out henc
  rw [hout]
  have hre : rlpNat tx.chain_id ++ rlpNat tx.nonce
      ++ rlpNat tx.max_priority_fee_per_gas ++ rlpNat tx.max_fee_per_gas
      ++ rlpNat tx.gas_limit ++ rlpBytes to_bytes ++ rlpNat tx.value
      ++ rlpVecU8 tx.data ++ rlpList []
      = rlpNat tx.chain_id ++ (rlpNat tx.nonce
        ++ (rlpNat tx.max_priority_fee_per_gas ++ (rlpNat tx.max_fee_per_gas
        ++ (rlpNat tx.gas_limit ++ (rlpBytes to_bytes ++ (rlpNat tx.value
        ++ (rlpVecU8 tx.data ++ rlpList []))))))) := by
    simp only [List.append_assoc]
  rw [hre]
  exact decodeChainIdNonce?_payload tx.chain_id tx.nonce
    (lt_trans h.1 (by norm_num)) (lt_trans h.2.1 (by norm_num)) _

/-- C6: `encode_unsigned_tx` is deterministic (equal transactions encode to
equal results), every successful encoding starts with the EIP-1559 type byte
`0x02`, and two valid transactions that differ in nonce or in chain id
encode to different byte strings (shown by decoding the first two RLP fields
back out of the payload). -/
theorem encode_unsigned_tx_deterministic_typed_injective
    (t1 t2 : EthTransaction) (h1 : ValidEthTx t1) (h2 : ValidEthTx t2) :
    (t1 = t2 → encode_unsigned_tx t1 = encode_unsigned_tx t2) ∧
    (∀ out, encode_unsigned_tx t1 = Except.ok out → out.head? = some 2) ∧
    (∀ out1 out2, encode_unsigned_tx t1 = Except.ok out1 →
      encode_unsigned_tx t2 = Except.ok out2 →
      t1.nonce ≠ t2.nonce ∨ t1.chain_id ≠ t2.chain_id → out1 ≠ out2) := by
  refine ⟨fun h => by rw [h], ?_, ?_⟩
  · intro out henc
    obtain ⟨tb, _, hout⟩ := encode_unsigned_tx_ok_shape t1 out henc
    rw [hout]
    rfl
  · intro out1 out2 henc1 henc2 hne heq
    have d1 := decodeChainIdNonce?_encode t1 h1 out1 henc1
    have d2 := decodeChainIdNonce?_encode t2 h2 out2 henc2
    have hp : (t2.chain_id, t2.nonce) = (t1.chain_id, t1.nonce) := by
      rw [heq, d2] at d1
      exact Option.some.inj d1
    rcases hne with hne | hne
    · exact hne (congrArg Prod.snd hp).symm
    · exact hne (congrArg Prod.fst hp).symm

/-- Witness for C6: two concrete transactions to the zero address, equal
except for nonce 0 versus 1, encode to different byte strings. -/
theorem encode_unsigned_tx_deterministic_typed_injective_witness :
    ([2, 221, 1, 128, 128, 128, 128, 148, 0, 0, 0, 0, 0, 0, 0, 0, 0, 0,
      0, 0, 0, 0, 0, 0, 0, 0, 0, 0, 128, 192, 192] : List Nat) ≠
    [2, 221, 1, 1, 128, 128, 128, 148, 0, 0, 0, 0, 0, 0, 0, 0, 0, 0,
      0, 0, 0, 0, 0, 0, 0, 0, 0, 0, 128, 192, 192] := by
  have r0 : rlpNat 0 = [128] := by simp [rlpNat, rlpBytes, minimalBE]
  have r1 : rlpNat 1 = [1] := by simp [rlpNat, rlpBytes, minimalBE]
  have hA : encode_unsigned_tx
      ⟨1, 0, 0, 0, 0, "0x0000000000000000000000000000000000000000", 0, []⟩
      = Except.ok [2, 221, 1, 128, 128, 128, 128, 148, 0, 0, 0, 0, 0, 0, 0,
        0, 0, 0, 0, 0, 0, 0, 0, 0, 0, 0, 0, 0, 128, 192, 192] := by
    unfold encode_unsigned_tx
    dsimp only
    rw [show parse_to_bytes "0x0000000000000000000000000000000000000000"
      = Except.ok [0, 0, 0, 0, 0, 0, 0, 0, 0, 0, 0, 0, 0, 0, 0, 0, 0, 0, 0, 0]
      from rfl]
    dsimp only
    rw [r1, r0]
    rfl
  have hB : encode_unsigned_tx
      ⟨1, 1, 0, 0, 0, "0x0000000000000000000000000000000000000000", 0, []⟩
      = Except.ok [2, 221, 1, 1, 128, 128, 128, 148, 0, 0, 0, 0, 0, 0, 0,
        0, 0, 0, 0, 0, 0, 0, 0, 0, 0, 0, 0, 0, 128, 192, 192] := by
    unfold encode_unsigned_tx
    dsimp only
    rw [show parse_to_bytes "0x0000000000000000000000000000000000000000"
      = Except.ok [0, 0, 0, 0, 0, 0, 0, 0, 0, 0, 0, 0, 0, 0, 0, 0, 0, 0, 0, 0]
      from rfl]
    dsimp only
    rw [r1, r0]
    rfl
  exact (encode_unsigned_tx_deterministic_typed_injective
      ⟨1, 0, 0, 0, 0, "0x0000000000000000000000000000000000000000", 0, []⟩
      ⟨1, 1, 0, 0, 0, "0x0000000000000000000000000000000000000000", 0, []⟩
      (by norm_num [ValidEthTx])
      (by norm_num [ValidEthTx])).2.2 _ _ hA hB (Or.inl (by decide))

end Eth
